import Mathlib

/-!
Verification development for the cheer-factory blog platform.

The post-record codec (`parse_post_content` and the file-content encoding used
by `publish_to_github`) is embedded at the level of character lists, mirroring
Python string primitives (`str.strip`, `str.split`, `str.startswith`, slicing)
exactly.  The content-repository synchronization layer (index store, cache,
post service operations and the guestbook rate limiter) is embedded as pure
state-passing functions over an explicit store/state record.
-/

namespace CheerFactory

instance {ε α : Type} [DecidableEq ε] [DecidableEq α] : DecidableEq (Except ε α) := fun x y =>
  match x, y with
  | .ok a, .ok b =>
    if h : a = b then isTrue (by rw [h]) else isFalse (by simp [h])
  | .error a, .error b =>
    if h : a = b then isTrue (by rw [h]) else isFalse (by simp [h])
  | .ok _, .error _ => isFalse (by simp)
  | .error _, .ok _ => isFalse (by simp)

/-! ### Python string primitives on character lists -/

/-- Python whitespace set used by str.strip: space, tab, newline, carriage
return, vertical tab, form feed. -/
def pyIsSpace (c : Char) : Bool :=
  c = ' ' || c = '\t' || c = '\n' || c = '\r' || c = '\x0b' || c = '\x0c'

/-- Left strip, as in Python lstrip with no argument. -/
def pyLStrip (l : List Char) : List Char := l.dropWhile pyIsSpace

/-- Right strip, as in Python rstrip with no argument. -/
def pyRStrip (l : List Char) : List Char := (l.reverse.dropWhile pyIsSpace).reverse

/-- Both-ends strip, as in Python str.strip(). -/
def pyStrip (l : List Char) : List Char := pyRStrip (pyLStrip l)

/-- Python str.startswith on character lists. -/
def pyStartsWith : List Char → List Char → Bool
  | _, [] => true
  | [], _ :: _ => false
  | c :: cs, p :: ps => c = p && pyStartsWith cs ps

/-- Python str.split(sep) for a one-character separator: splits at every
occurrence, keeps empty pieces, and yields one piece for the empty string. -/
def pySplit (sep : Char) : List Char → List (List Char)
  | [] => [[]]
  | c :: cs =>
    if c = sep then [] :: pySplit sep cs
    else
      match pySplit sep cs with
      | h :: t => (c :: h) :: t
      | [] => [[c]]

/-- Python sep.join for a string separator. -/
def joinStr (sep : List Char) : List (List Char) → List Char
  | [] => []
  | [a] => a
  | a :: b :: r => a ++ sep ++ joinStr sep (b :: r)

/-! ### The post record codec (`parse_post_content` in main.py) -/

def tagsMark : List Char := "TAGS:".data

def imageMark : List Char := "IMAGE:".data

/-- The list comprehension building the tag list from the text after the
TAGS: marker: split on commas, strip each piece, keep the nonempty ones. -/
def parseTagsField (s : List Char) : List (List Char) :=
  ((pySplit ',' s).map pyStrip).filter (fun t => t ≠ [])

/-- The metadata scan loop of parse_post_content: walks every line after the
title, reassigning tags on each TAGS: line and the image URL on each IMAGE:
line, and collecting every other line as body content, in order. -/
def scanMeta : List (List Char) → List (List Char) → List Char →
    List (List Char) × List Char × List (List Char)
  | [], tags, image => (tags, image, [])
  | l :: rest, tags, image =>
    let s := pyStrip l
    if pyStartsWith s tagsMark then
      scanMeta rest (parseTagsField (s.drop 5)) image
    else if pyStartsWith s imageMark then
      scanMeta rest tags (pyStrip (s.drop 6))
    else
      let r := scanMeta rest tags image
      (r.1, r.2.1, l :: r.2.2)

/-- Result of decoding one post text. -/
structure Parsed where
  title : List Char
  content : List Char
  tags : List (List Char)
  image : List Char
deriving DecidableEq, Repr

/-- parse_post_content from main.py: strip the text, split into lines, take
the first line as title, scan the remaining lines for metadata, and join the
non-metadata lines (stripped) as the body. -/
def parse_post_content (text : List Char) : Parsed :=
  let lines := pySplit '\n' (pyStrip text)
  let title := match lines with
    | [] => "Untitled".data
    | t :: _ => t
  let r := scanMeta lines.tail [] []
  { title := title
    content := pyStrip (joinStr ['\n'] r.2.2)
    tags := r.1
    image := r.2.1 }

/-- The file-content serialization used by publish_to_github: title line,
optional TAGS:/IMAGE: metadata lines, a blank line, then the body.  The tag
list is rendered as a comma-separated string (the form the admin surface
feeds back into the tags field). -/
def encodePost (title content : List Char) (tags : List (List Char))
    (image : List Char) : List Char :=
  let tagsStr := joinStr ", ".data tags
  let meta :=
    (if tagsStr ≠ [] then "TAGS: ".data ++ tagsStr ++ ['\n'] else []) ++
    (if image ≠ [] then "IMAGE: ".data ++ image ++ ['\n'] else [])
  title ++ '\n' :: meta ++ '\n' :: content

/-! ### String-level helpers wrapping the character-list primitives -/

def pyStripS (s : String) : String := ⟨pyStrip s.data⟩

def startsWithS (s p : String) : Bool := pyStartsWith s.data p.data

def endsWithS (s p : String) : Bool := pyStartsWith s.data.reverse p.data.reverse

/-- Python slicing s[:-n]. -/
def dropRightS (s : String) (n : Nat) : String := ⟨s.data.take (s.data.length - n)⟩

def joinStrS (sep : String) (l : List String) : String :=
  ⟨joinStr sep.data (l.map (fun s => s.data))⟩

/-- The date derivation used for filenames and ids:
"-".join(x.split("-")[:3]) when a dash is present, else x itself. -/
def dateOfId (s : String) : String :=
  if s.data.contains '-' then ⟨joinStr "-".data ((pySplit '-' s.data).take 3)⟩ else s

/-- Strict lexicographic comparison on code points, as Python string <. -/
def lexLtChars : List Char → List Char → Bool
  | [], [] => false
  | [], _ :: _ => true
  | _ :: _, [] => false
  | a :: as, b :: bs => if a = b then lexLtChars as bs else decide (a.toNat < b.toNat)

/-! ### Data model: posts, index document, cache, repository state -/

structure Post where
  id : String
  title : String
  date : String
  content : String
  tags : List String
  image_url : String
  lang : Option String
deriving DecidableEq, Repr

/-- The aggregate index document posts/index.json. -/
structure IndexDoc where
  posts : List Post
  updated : String
deriving DecidableEq, Repr

/-- The in-process posts cache. -/
structure Cache where
  data : Option (List Post)
  timestamp : Nat
  ttl : Nat
deriving DecidableEq, Repr

/-- The remote store plus process state.  The posts directory is the `files`
association list (filename to content); the index document is kept as a
separate field (in the source it lives at posts/index.json, a path every
directory-listing filter in the data-access code excludes). -/
structure BlogSt where
  files : List (String × String)
  index : Option IndexDoc
  cache : Cache
deriving DecidableEq, Repr

/-! ### Repository client (GitHub contents API, modelled on the store) -/

def ghGetFile (st : BlogSt) (name : String) : Option String :=
  match st.files.find? (fun f => f.1 = name) with
  | some f => some f.2
  | none => none

/-- PUT without a sha: creates the file; the backing API rejects the request
when the path already exists. -/
def ghCreateFile (st : BlogSt) (name content : String) : Except String BlogSt :=
  if (st.files.find? (fun f => f.1 = name)).isSome then
    Except.error "path already exists"
  else
    Except.ok { st with files := st.files ++ [(name, content)] }

/-- PUT with the current sha: replaces the content in place. -/
def ghReplaceFile (st : BlogSt) (name content : String) : BlogSt :=
  { st with files := st.files.map (fun f => if f.1 = name then (name, content) else f) }

def ghDeleteFile (st : BlogSt) (name : String) : BlogSt :=
  { st with files := st.files.filter (fun f => f.1 ≠ name) }

/-! ### Index store and cache layer (main.py data-access functions) -/

def invalidate_cache (c : Cache) : Cache := { data := none, timestamp := 0, ttl := c.ttl }

def get_posts_index (st : BlogSt) : Option IndexDoc := st.index

/-- save_posts_index: the outcome of the underlying PUT is supplied as `ok`
(network writes can fail); on success the index document is replaced. -/
def save_posts_index (st : BlogSt) (idx : IndexDoc) (ok : Bool) : BlogSt × Bool :=
  if ok then ({ st with index := some idx }, true) else (st, false)

def fileLang (filename : String) : Option String :=
  if endsWithS filename "-ko" then some "ko"
  else if endsWithS filename "-en" then some "en"
  else none

def insertFileDesc (x : String × String) :
    List (String × String) → List (String × String)
  | [] => [x]
  | y :: ys => if lexLtChars y.1.data x.1.data then x :: y :: ys else y :: insertFileDesc x ys

/-- Sort the directory listing by filename, descending (reverse=True). -/
def sortFilesDesc (l : List (String × String)) : List (String × String) :=
  l.foldl (fun acc x => insertFileDesc x acc) []

/-- load_posts_legacy: list every .txt file except template.txt, newest first
by filename, decode each with the codec, derive lang and date from the name. -/
def load_posts_legacy (st : BlogSt) : List Post :=
  let txt := st.files.filter (fun f => endsWithS f.1 ".txt" && f.1 != "template.txt")
  (sortFilesDesc txt).map (fun f =>
    let filename := dropRightS f.1 4
    let p := parse_post_content f.2.data
    { id := filename
      title := ⟨p.title⟩
      date := dateOfId filename
      content := ⟨p.content⟩
      tags := p.tags.map (fun t => (⟨t⟩ : String))
      image_url := ⟨p.image⟩
      lang := fileLang filename })

def langFilter (lang : Option String) (posts : List Post) : List Post :=
  match lang with
  | none => posts
  | some l => posts.filter (fun p => p.lang == some l)

def cacheHit (c : Cache) (now : Nat) : Bool :=
  c.data.isSome && decide (now - c.timestamp < c.ttl)

/-- load_posts: serve from the cache while fresh; otherwise load the index
document (falling back to the legacy full scan, persisting a rebuilt index
when the scan found posts), store the unfiltered list in the cache, and
apply the language filter only to the returned value. -/
def load_posts (st : BlogSt) (now : Nat) (nowIso : String) (idxOk : Bool)
    (lang : Option String) : List Post × BlogSt :=
  if cacheHit st.cache now then
    (langFilter lang (st.cache.data.getD []), st)
  else
    let r :=
      match st.index with
      | some idx => (idx.posts, st)
      | none =>
        let allPosts := load_posts_legacy st
        let st1 := if allPosts ≠ [] then (save_posts_index st ⟨allPosts, nowIso⟩ idxOk).1 else st
        (allPosts, st1)
    let st2 := { r.2 with cache := { data := some r.1, timestamp := now, ttl := r.2.cache.ttl } }
    (langFilter lang r.1, st2)

/-- The field subset written into an index entry by admin_update. -/
structure PostUpdate where
  title : String
  content : String
  tags : List String
  image_url : String
  date : String
deriving DecidableEq, Repr

def applyUpdate (p : Post) (u : PostUpdate) : Post :=
  { p with title := u.title, content := u.content, tags := u.tags,
           image_url := u.image_url, date := u.date }

/-- Update the first index entry with the given id (the loop breaks after
the first match). -/
def updateFirstPost (pid : String) (u : PostUpdate) : List Post → List Post
  | [] => []
  | p :: ps => if p.id = pid then applyUpdate p u :: ps else p :: updateFirstPost pid u ps

def add_post_to_index (st : BlogSt) (pko pen : Post) (nowIso : String)
    (idxOk : Bool) : BlogSt :=
  let idx := st.index.getD ⟨[], ""⟩
  let st1 := (save_posts_index st ⟨pko :: pen :: idx.posts, nowIso⟩ idxOk).1
  { st1 with cache := invalidate_cache st1.cache }

def update_post_in_index (st : BlogSt) (pid : String) (u : PostUpdate)
    (nowIso : String) (idxOk : Bool) : BlogSt :=
  match get_posts_index st with
  | none => st
  | some idx =>
    let st1 := (save_posts_index st ⟨updateFirstPost pid u idx.posts, nowIso⟩ idxOk).1
    { st1 with cache := invalidate_cache st1.cache }

def remove_post_from_index (st : BlogSt) (pid : String) (nowIso : String)
    (idxOk : Bool) : BlogSt :=
  match get_posts_index st with
  | none => st
  | some idx =>
    let st1 := (save_posts_index st ⟨idx.posts.filter (fun p => p.id != pid), nowIso⟩ idxOk).1
    { st1 with cache := invalidate_cache st1.cache }

/-! ### Post service: publish, update, delete -/

/-- Python format {n:03d}. -/
def seq3 (n : Nat) : String :=
  if n < 10 then "00" ++ toString n
  else if n < 100 then "0" ++ toString n
  else toString n

/-- Count of files in the posts directory named {date}...-ko.txt. -/
def get_existing_posts_count (st : BlogSt) (date : String) : Nat :=
  (st.files.filter (fun f => startsWithS f.1 date && endsWithS f.1 "-ko.txt")).length

/-- [t.strip() for t in tags.split(",") if t.strip()] if tags else []. -/
def parseTagsS (tags : String) : List String :=
  if tags ≠ "" then
    ((pySplit ',' tags.data).map (fun t => (⟨pyStrip t⟩ : String))).filter (fun t => t != "")
  else []

def metaLinesFor (tags image_url : String) : String :=
  (if tags ≠ "" then "TAGS: " ++ tags ++ "\n" else "") ++
  (if image_url ≠ "" then "IMAGE: " ++ image_url ++ "\n" else "")

/-- publish_to_github: sequence number from the count of today's ko files,
create both language files (the Korean write failing aborts before the
English write; the English write failing leaves the Korean file in place),
then prepend both entries to the index and invalidate the cache. -/
def publish_to_github (st : BlogSt) (today : String)
    (title_ko content_ko title_en content_en tags image_url : String)
    (nowIso : String) (idxOk : Bool) : Except String Unit × BlogSt :=
  let post_num := get_existing_posts_count st today + 1
  let meta := metaLinesFor tags image_url
  let filename_ko := today ++ "-" ++ seq3 post_num ++ "-ko.txt"
  let file_content_ko := title_ko ++ "\n" ++ meta ++ "\n" ++ content_ko
  match ghCreateFile st filename_ko file_content_ko with
  | .error e => (.error ("KO publish failed: " ++ e), st)
  | .ok st1 =>
    let filename_en := today ++ "-" ++ seq3 post_num ++ "-en.txt"
    let file_content_en := title_en ++ "\n" ++ meta ++ "\n" ++ content_en
    match ghCreateFile st1 filename_en file_content_en with
    | .error e => (.error ("EN publish failed: " ++ e), st1)
    | .ok st2 =>
      let tags_list := parseTagsS tags
      let pko : Post :=
        { id := dropRightS filename_ko 4
          title := title_ko
          date := today
          content := content_ko
          tags := tags_list
          image_url := image_url
          lang := some "ko" }
      let pen : Post :=
        { id := dropRightS filename_en 4
          title := title_en
          date := today
          content := content_en
          tags := tags_list
          image_url := image_url
          lang := some "en" }
      (.ok (), add_post_to_index st2 pko pen nowIso idxOk)

/-- admin_publish: validation, then translation (the collaborator outcome is
the `translated` argument; none models a raised generation/translation
error), then publish. -/
def admin_publish (st : BlogSt) (title_ko content_ko tags image_url : String)
    (translated : Option (String × String)) (today nowIso : String) (idxOk : Bool) :
    Except String String × BlogSt :=
  if title_ko = "" ∨ content_ko = "" then (.error "Title and content required", st)
  else
    match translated with
    | none => (.error "translation failed", st)
    | some (ten, cen) =>
      match publish_to_github st today title_ko content_ko ten cen tags image_url nowIso idxOk with
      | (.ok _, st1) => (.ok "Published!", st1)
      | (.error e, st1) => (.error e, st1)

/-- Strip a -ko or -en suffix to recover the base id. -/
def baseIdOf (pid : String) : String :=
  if endsWithS pid "-ko" || endsWithS pid "-en" then dropRightS pid 3 else pid

/-- admin_update: translation first (failure aborts before any write), then
rewrite the Korean file against its sha, update or create the English file,
and patch both index entries. -/
def admin_update (st : BlogSt) (post_id title content tags image_url : String)
    (translated : Option (String × String)) (nowIso : String) (idxOk : Bool) :
    Except String String × BlogSt :=
  if post_id = "" ∨ title = "" then (.error "Post ID and title required", st)
  else
    let base_id := baseIdOf post_id
    match translated with
    | none => (.error "Translation failed", st)
    | some tr =>
      let file_content_ko := title ++ "\n" ++ metaLinesFor tags image_url ++ "\n" ++ content
      match ghGetFile st (base_id ++ "-ko.txt") with
      | none => (.error "Post not found", st)
      | some _ =>
        let st1 := ghReplaceFile st (base_id ++ "-ko.txt") file_content_ko
        let file_content_en := tr.1 ++ "\n" ++ metaLinesFor tags image_url ++ "\n" ++ tr.2
        let st2 :=
          match ghGetFile st1 (base_id ++ "-en.txt") with
          | some _ => ghReplaceFile st1 (base_id ++ "-en.txt") file_content_en
          | none => { st1 with files := st1.files ++ [(base_id ++ "-en.txt", file_content_en)] }
        let tags_list := parseTagsS tags
        let date := dateOfId base_id
        let st3 := update_post_in_index st2 (base_id ++ "-ko")
          ⟨title, content, tags_list, image_url, date⟩ nowIso idxOk
        let st4 := update_post_in_index st3 (base_id ++ "-en")
          ⟨tr.1, tr.2, tags_list, image_url, date⟩ nowIso idxOk
        (.ok "Updated (KO + EN)", st4)

/-- admin_delete: try both language files; a file whose GET fails is skipped,
each successful delete also removes the index entry; succeed when at least
one file was deleted. -/
def admin_delete (st : BlogSt) (post_id : String) (nowIso : String) (idxOk : Bool) :
    Except String String × BlogSt :=
  if post_id = "" then (.error "Post ID required", st)
  else
    let step := fun (acc : BlogSt × List String) (suffix : String) =>
      let base_id := baseIdOf post_id
      let file_id := base_id ++ suffix
      match ghGetFile acc.1 (file_id ++ ".txt") with
      | none => acc
      | some _ =>
        let s1 := ghDeleteFile acc.1 (file_id ++ ".txt")
        let s2 := remove_post_from_index s1 file_id nowIso idxOk
        (s2, acc.2 ++ [file_id])
    let r := ["-ko", "-en"].foldl step (st, [])
    if r.2 ≠ [] then (.ok ("Deleted: " ++ joinStrS ", " r.2), r.1)
    else (.error "Failed to delete posts", r.1)

/-! ### Guestbook: rate limiter and submission -/

structure GuestSt where
  entries : List (String × String)
  rateLimit : List (String × Nat)
deriving DecidableEq, Repr

/-- Python dict assignment d[k] = v on an insertion-ordered mapping. -/
def pyDictInsert (d : List (String × Nat)) (k : String) (v : Nat) : List (String × Nat) :=
  if (d.find? (fun e => e.1 = k)).isSome then
    d.map (fun e => if e.1 = k then (k, v) else e)
  else d ++ [(k, v)]

/-- Python dict.update: merge every key of upd into d; keys absent from upd
are left untouched. -/
def pyDictUpdate (d upd : List (String × Nat)) : List (String × Nat) :=
  upd.foldl (fun acc e => pyDictInsert acc e.1 e.2) d

def pyDictGetD (d : List (String × Nat)) (k : String) (dflt : Nat) : Nat :=
  match d.find? (fun e => e.1 = k) with
  | some e => e.2
  | none => dflt

/-- add_guestbook: honeypot check (silent success), validation, IP rate
limit (60 seconds), record current time, run the sweep expression, insert
the entry (dbOk is the database insert outcome). -/
def add_guestbook (gst : GuestSt) (nickname message honeypot clientIpHeader : String)
    (now : Nat) (dbOk : Bool) : Except String Unit × GuestSt :=
  let nickname := pyStripS nickname
  let message := pyStripS message
  if honeypot ≠ "" then (.ok (), gst)
  else if nickname = "" ∨ message = "" then (.error "Nickname and message required", gst)
  else if 20 < nickname.data.length then (.error "Nickname too long (max 20)", gst)
  else if 500 < message.data.length then (.error "Message too long (max 500)", gst)
  else
    let client_ip :=
      if clientIpHeader ≠ "" then pyStripS ⟨(pySplit ',' clientIpHeader.data).headD []⟩
      else clientIpHeader
    let last := pyDictGetD gst.rateLimit client_ip 0
    if now - last < 60 then (.error "Please wait", gst)
    else
      let rl1 := pyDictInsert gst.rateLimit client_ip now
      let swept := pyDictUpdate rl1 (rl1.filter (fun e => decide (now - e.2 < 300)))
      let gst1 := { gst with rateLimit := swept }
      if dbOk then (.ok (), { gst1 with entries := gst1.entries ++ [(nickname, message)] })
      else (.error "db error", gst1)

/-! ### Derived scan descriptions used to state codec properties -/

/-- A line whose stripped form begins with TAGS: . -/
def isTagsLine (l : List Char) : Bool := pyStartsWith (pyStrip l) tagsMark

/-- A line whose stripped form begins with IMAGE: . -/
def isImageLine (l : List Char) : Bool := pyStartsWith (pyStrip l) imageMark

/-- The last element of a line list satisfying p, if any. -/
def lastMatch (p : List Char → Bool) : List (List Char) → Option (List Char)
  | [] => none
  | l :: rest =>
    match lastMatch p rest with
    | some r => some r
    | none => if p l then some l else none

/-- Append one character to the last piece of a split. -/
def appendLast (c : Char) : List (List Char) → List (List Char)
  | [] => [[c]]
  | [a] => [a ++ [c]]
  | a :: b :: r => a :: appendLast c (b :: r)

/-- One good tag: stripped, nonempty, comma-free and newline-free. -/
def TagOK (x : List Char) : Prop :=
  pyStrip x = x ∧ x ≠ [] ∧ ',' ∉ x ∧ '\n' ∉ x

example :
    parse_post_content "Hello\nTAGS: a, b\nIMAGE: http://x\n\nBody text".data =
      { title := "Hello".data, content := "Body text".data,
        tags := ["a".data, "b".data], image := "http://x".data } := by decide

example :
    parse_post_content "Title\nBody\nTAGS: x".data =
      { title := "Title".data, content := "Body".data,
        tags := ["x".data], image := [] } := by decide

/-! ### Scan loop lemmas -/

theorem tags_not_image {l : List Char} (h : isTagsLine l = true) :
    isImageLine l = false := by
  simp only [isTagsLine] at h
  simp only [isImageLine]
  cases hs : pyStrip l with
  | nil => rw [hs] at h; simp [pyStartsWith, tagsMark] at h
  | cons c cs =>
    rw [hs] at h
    rw [show tagsMark = 'T' :: "AGS:".data from rfl] at h
    rw [show imageMark = 'I' :: "MAGE:".data from rfl]
    simp only [pyStartsWith, Bool.and_eq_true, decide_eq_true_eq] at h
    obtain ⟨hc, -⟩ := h
    subst hc
    simp [pyStartsWith]

theorem scanMeta_cons_tags {l : List Char} (rest : List (List Char))
    (tg : List (List Char)) (im : List Char) (h : isTagsLine l = true) :
    scanMeta (l :: rest) tg im = scanMeta rest (parseTagsField ((pyStrip l).drop 5)) im := by
  simp only [isTagsLine] at h
  simp [scanMeta, h]

theorem scanMeta_cons_image {l : List Char} (rest : List (List Char))
    (tg : List (List Char)) (im : List Char)
    (h1 : isTagsLine l = false) (h2 : isImageLine l = true) :
    scanMeta (l :: rest) tg im = scanMeta rest tg (pyStrip ((pyStrip l).drop 6)) := by
  simp only [isTagsLine] at h1
  simp only [isImageLine] at h2
  simp [scanMeta, h1, h2]

theorem scanMeta_cons_other {l : List Char} (rest : List (List Char))
    (tg : List (List Char)) (im : List Char)
    (h1 : isTagsLine l = false) (h2 : isImageLine l = false) :
    scanMeta (l :: rest) tg im =
      ((scanMeta rest tg im).1, (scanMeta rest tg im).2.1, l :: (scanMeta rest tg im).2.2) := by
  simp only [isTagsLine] at h1
  simp only [isImageLine] at h2
  simp [scanMeta, h1, h2]

theorem scanMeta_content (ls : List (List Char)) :
    ∀ tg im, (scanMeta ls tg im).2.2 =
      ls.filter (fun l => !(isTagsLine l || isImageLine l)) := by
  induction ls with
  | nil => intro tg im; rfl
  | cons l rest ih =>
    intro tg im
    rw [List.filter_cons]
    cases ht : isTagsLine l with
    | true => rw [scanMeta_cons_tags _ _ _ ht]; simp [ht]; simpa using ih _ _
    | false =>
      cases hi : isImageLine l with
      | true => rw [scanMeta_cons_image _ _ _ ht hi]; simp [ht, hi]; simpa using ih _ _
      | false => rw [scanMeta_cons_other _ _ _ ht hi]; simp [ht, hi]; simpa using ih _ _

theorem scanMeta_tags (ls : List (List Char)) :
    ∀ tg im, (scanMeta ls tg im).1 =
      match lastMatch isTagsLine ls with
      | none => tg
      | some l => parseTagsField ((pyStrip l).drop 5) := by
  induction ls with
  | nil => intro tg im; rfl
  | cons l rest ih =>
    intro tg im
    cases ht : isTagsLine l with
    | true =>
      rw [scanMeta_cons_tags _ _ _ ht, ih]
      cases h : lastMatch isTagsLine rest <;> simp [lastMatch, h, ht]
    | false =>
      cases hi : isImageLine l with
      | true =>
        rw [scanMeta_cons_image _ _ _ ht hi, ih]
        cases h : lastMatch isTagsLine rest <;> simp [lastMatch, h, ht]
      | false =>
        rw [scanMeta_cons_other _ _ _ ht hi]
        show (scanMeta rest tg im).1 = _
        rw [ih]
        cases h : lastMatch isTagsLine rest <;> simp [lastMatch, h, ht]

theorem scanMeta_image (ls : List (List Char)) :
    ∀ tg im, (scanMeta ls tg im).2.1 =
      match lastMatch isImageLine ls with
      | none => im
      | some l => pyStrip ((pyStrip l).drop 6) := by
  induction ls with
  | nil => intro tg im; rfl
  | cons l rest ih =>
    intro tg im
    cases ht : isTagsLine l with
    | true =>
      have himg : isImageLine l = false := tags_not_image ht
      rw [scanMeta_cons_tags _ _ _ ht, ih]
      cases h : lastMatch isImageLine rest <;> simp [lastMatch, h, himg]
    | false =>
      cases hi : isImageLine l with
      | true =>
        rw [scanMeta_cons_image _ _ _ ht hi, ih]
        cases h : lastMatch isImageLine rest <;> simp [lastMatch, h, hi]
      | false =>
        rw [scanMeta_cons_other _ _ _ ht hi]
        show (scanMeta rest tg im).2.1 = _
        rw [ih]
        cases h : lastMatch isImageLine rest <;> simp [lastMatch, h, hi]

/-! ### Claim C2 -/

/-- C2 counterexample: the claim says the metadata scan stops at the first
line matching neither prefix ("Body"), so "TAGS: x" further down would stay
in the body verbatim and yield no tags; the code instead scans every line:
the late TAGS: line is consumed as metadata and removed from the body. -/
theorem c2_counterexample :
    parse_post_content "Title\nBody\nTAGS: x".data =
      { title := "Title".data, content := "Body".data,
        tags := ["x".data], image := [] } ∧
    (parse_post_content "Title\nBody\nTAGS: x".data).tags ≠ [] := by decide

/-- C2 amended: the scan covers every line after the title, not only the
lines before the first non-metadata line: the body consists exactly of the
lines matching neither prefix, and the tags and image URL come from the last
matching TAGS:/IMAGE: line anywhere in the text. -/
theorem c2_amended (text : List Char) :
    (parse_post_content text).content =
      pyStrip (joinStr ['\n'] ((pySplit '\n' (pyStrip text)).tail.filter
        (fun l => !(isTagsLine l || isImageLine l)))) ∧
    (parse_post_content text).tags =
      (match lastMatch isTagsLine (pySplit '\n' (pyStrip text)).tail with
       | none => []
       | some l => parseTagsField ((pyStrip l).drop 5)) ∧
    (parse_post_content text).image =
      (match lastMatch isImageLine (pySplit '\n' (pyStrip text)).tail with
       | none => []
       | some l => pyStrip ((pyStrip l).drop 6)) := by
  refine ⟨?_, ?_, ?_⟩
  · show pyStrip (joinStr ['\n'] (scanMeta _ [] []).2.2) = _
    rw [scanMeta_content]
  · exact scanMeta_tags _ [] []
  · exact scanMeta_image _ [] []

/-! ### Claim C8 -/

/-- C8: decoding is total (the equations below hold for every input string),
the tag list and image URL default to empty when no matching metadata line
exists, and when a metadata prefix occurs on several lines the last
occurrence wins. -/
theorem c8_decode_total_defaults_last_wins (text : List Char) :
    (parse_post_content text).tags =
      (match lastMatch isTagsLine (pySplit '\n' (pyStrip text)).tail with
       | none => []
       | some l => parseTagsField ((pyStrip l).drop 5)) ∧
    (parse_post_content text).image =
      (match lastMatch isImageLine (pySplit '\n' (pyStrip text)).tail with
       | none => []
       | some l => pyStrip ((pyStrip l).drop 6)) ∧
    (lastMatch isTagsLine (pySplit '\n' (pyStrip text)).tail = none →
      (parse_post_content text).tags = []) ∧
    (lastMatch isImageLine (pySplit '\n' (pyStrip text)).tail = none →
      (parse_post_content text).image = []) := by
  have ht := scanMeta_tags (pySplit '\n' (pyStrip text)).tail [] []
  have hi := scanMeta_image (pySplit '\n' (pyStrip text)).tail [] []
  refine ⟨ht, hi, ?_, ?_⟩
  · intro h; rw [show (parse_post_content text).tags = _ from ht, h]
  · intro h; rw [show (parse_post_content text).image = _ from hi, h]

/-- Witness for c8: a metadata-only text with a duplicated TAGS: line; the
last occurrence wins and the absent IMAGE: line defaults to the empty URL. -/
theorem c8_witness :
    (parse_post_content "T\nTAGS: a\nTAGS: b\nx".data).tags = ["b".data] ∧
    (parse_post_content "T\nTAGS: a\nTAGS: b\nx".data).image = [] :=
  ⟨by rw [(c8_decode_total_defaults_last_wins "T\nTAGS: a\nTAGS: b\nx".data).1]; decide,
   (c8_decode_total_defaults_last_wins "T\nTAGS: a\nTAGS: b\nx".data).2.2.2 (by decide)⟩

/-! ### Claim C9 -/

/-- C9: a guestbook submission with a non-empty honeypot field returns
success and leaves the entire guestbook state (entries and rate-limit
mapping) unchanged, before any validation or rate limiting runs. -/
theorem c9_honeypot_silent_drop (gst : GuestSt)
    (nickname message honeypot ip : String) (now : Nat) (dbOk : Bool)
    (h : honeypot ≠ "") :
    add_guestbook gst nickname message honeypot ip now dbOk = (.ok (), gst) := by
  simp [add_guestbook, h]

/-- Witness for c9 at a concrete bot submission. -/
theorem c9_witness :
    add_guestbook ⟨[], []⟩ "a" "b" "http://spam" "1.2.3.4" 0 true =
      (.ok (), (⟨[], []⟩ : GuestSt)) :=
  c9_honeypot_silent_drop ⟨[], []⟩ "a" "b" "http://spam" "1.2.3.4" 0 true (by decide)

/-! ### Claim C4 -/

/-- C4: the claim states that after a successful guestbook post no
rate-limit entry older than 300 seconds remains.  The sweep uses dict.update
with a filtered dictionary, which merges and never deletes, so the stale
entry for 1.1.1.1 (age 400 seconds) survives a successful post — the code
contradicts its own sweep comment. -/
theorem c4_sweep_never_removes :
    (add_guestbook ⟨[], [("1.1.1.1", 0)]⟩ "bob" "hi" "" "2.2.2.2" 400 true).1 = .ok () ∧
    ("1.1.1.1", 0) ∈
      (add_guestbook ⟨[], [("1.1.1.1", 0)]⟩ "bob" "hi" "" "2.2.2.2" 400 true).2.rateLimit ∧
    300 ≤ 400 - 0 := by decide

/-! ### Claim C5 -/

/-- C5: when the translation collaborator fails, admin_update returns an
error and the state — store files, index document and cache — is exactly the
input state: nothing was written. -/
theorem c5_update_translation_failure_atomic (st : BlogSt)
    (post_id title content tags image_url nowIso : String) (idxOk : Bool) :
    (admin_update st post_id title content tags image_url none nowIso idxOk).2 = st ∧
    ∃ e, (admin_update st post_id title content tags image_url none nowIso idxOk).1 =
      .error e := by
  unfold admin_update
  by_cases h : post_id = "" ∨ title = ""
  · simp [h]
  · simp [h]

/-! ### Claim C3 -/

/-- C3 counterexample: deleting a post id for which neither language file
exists returns the error "Failed to delete posts" (HTTP 500 in the route),
not a success reporting zero deletions as the claim states. -/
theorem c3_counterexample :
    (admin_delete ⟨[], some ⟨[], "t"⟩, ⟨none, 0, 60⟩⟩ "2025-01-01-001" "t2" true).1 =
      .error "Failed to delete posts" := by decide

/-! ### State-model helper lemmas -/

theorem strMk_data (s : String) : (⟨s.data⟩ : String) = s := rfl

theorem add_post_to_index_cache_data (st : BlogSt) (pko pen : Post)
    (iso : String) (ok : Bool) :
    (add_post_to_index st pko pen iso ok).cache.data = none := rfl

theorem update_post_in_index_cache_data (st : BlogSt) (pid : String)
    (u : PostUpdate) (iso : String) (ok : Bool) (idx : IndexDoc)
    (h : st.index = some idx) :
    (update_post_in_index st pid u iso ok).cache.data = none := by
  unfold update_post_in_index get_posts_index
  rw [h]
  rfl

theorem update_post_in_index_index (st : BlogSt) (pid : String)
    (u : PostUpdate) (iso : String) (ok : Bool) (idx : IndexDoc)
    (h : st.index = some idx) :
    ∃ idx2, (update_post_in_index st pid u iso ok).index = some idx2 := by
  unfold update_post_in_index get_posts_index save_posts_index
  rw [h]
  cases ok with
  | true => exact ⟨_, rfl⟩
  | false => exact ⟨idx, h⟩

theorem remove_post_from_index_cache_data (st : BlogSt) (pid : String)
    (iso : String) (ok : Bool) (idx : IndexDoc) (h : st.index = some idx) :
    (remove_post_from_index st pid iso ok).cache.data = none := by
  unfold remove_post_from_index get_posts_index
  rw [h]
  rfl

theorem remove_post_from_index_index (st : BlogSt) (pid : String)
    (iso : String) (ok : Bool) (idx : IndexDoc) (h : st.index = some idx) :
    ∃ idx2, (remove_post_from_index st pid iso ok).index = some idx2 := by
  unfold remove_post_from_index get_posts_index save_posts_index
  rw [h]
  cases ok with
  | true => exact ⟨_, rfl⟩
  | false => exact ⟨idx, h⟩

theorem ghDeleteFile_index (st : BlogSt) (n : String) :
    (ghDeleteFile st n).index = st.index := rfl

theorem langFilter_none (l : List Post) : langFilter none l = l := rfl

theorem find_filter_of_imp {α : Type} (p q : α → Bool)
    (h : ∀ x, p x = true → q x = true) :
    ∀ l : List α, (l.filter q).find? p = l.find? p := by
  intro l
  induction l with
  | nil => rfl
  | cons a l ih =>
    cases hq : q a with
    | true =>
      rw [List.filter_cons_of_pos hq]
      cases hp : p a with
      | true =>
        rw [List.find?_cons_of_pos _ hp, List.find?_cons_of_pos _ hp]
      | false =>
        rw [List.find?_cons_of_neg _ (by simp [hp]), List.find?_cons_of_neg _ (by simp [hp]), ih]
    | false =>
      have hp : p a = false := by
        cases hpa : p a with
        | false => rfl
        | true => rw [h a hpa] at hq; exact absurd hq (by simp)
      rw [List.filter_cons_of_neg (by simp [hq]), List.find?_cons_of_neg _ (by simp [hp]), ih]

theorem ghGetFile_delete_ne (st : BlogSt) (m n : String) (h : ¬ n = m) :
    ghGetFile (ghDeleteFile st m) n = ghGetFile st n := by
  unfold ghGetFile ghDeleteFile
  dsimp only
  rw [find_filter_of_imp (fun f : String × String => decide (f.1 = n))
    (fun f : String × String => decide (f.1 ≠ m))
    (fun x hx => by
      simp only [decide_eq_true_eq] at hx
      simp [hx, h])]

theorem remove_post_from_index_files (st : BlogSt) (pid iso : String) (ok : Bool) :
    (remove_post_from_index st pid iso ok).files = st.files := by
  unfold remove_post_from_index get_posts_index save_posts_index
  cases st.index with
  | none => rfl
  | some idx =>
    cases ok with
    | true => rfl
    | false => rfl

theorem ghGetFile_files (st st2 : BlogSt) (h : st.files = st2.files) (n : String) :
    ghGetFile st n = ghGetFile st2 n := by
  unfold ghGetFile
  rw [h]

theorem en_txt_ne_ko_txt (b : String) :
    ¬ (b ++ "-en" ++ ".txt" = b ++ "-ko" ++ ".txt") := by
  intro h
  have h2 : (b ++ "-en" ++ ".txt").data = (b ++ "-ko" ++ ".txt").data := by rw [h]
  simp only [String.data_append, List.append_assoc] at h2
  have h3 := List.append_cancel_left h2
  exact absurd h3 (by decide)

theorem joinStrS_pair (sep a b : String) : joinStrS sep [a, b] = a ++ sep ++ b := by
  unfold joinStrS joinStr
  rfl

/-! ### Claim C3, amended -/

/-- C3 amended: a missing half of the pair is skipped without failing; the
call succeeds reporting exactly the ids actually deleted whenever at least
one of the two language files existed (only EN, only KO, or both), but when
both language files are absent the route returns the error
"Failed to delete posts" (not a success with zero deletions). -/
theorem c3_amended (st : BlogSt) (pid nowIso : String) (idxOk : Bool)
    (hpid : pid ≠ "") :
    (ghGetFile st (baseIdOf pid ++ "-ko" ++ ".txt") = none →
      ghGetFile st (baseIdOf pid ++ "-en" ++ ".txt") = none →
      admin_delete st pid nowIso idxOk = (.error "Failed to delete posts", st)) ∧
    (∀ c, ghGetFile st (baseIdOf pid ++ "-ko" ++ ".txt") = none →
      ghGetFile st (baseIdOf pid ++ "-en" ++ ".txt") = some c →
      (admin_delete st pid nowIso idxOk).1 =
        .ok ("Deleted: " ++ (baseIdOf pid ++ "-en"))) ∧
    (∀ c, ghGetFile st (baseIdOf pid ++ "-ko" ++ ".txt") = some c →
      ghGetFile st (baseIdOf pid ++ "-en" ++ ".txt") = none →
      (admin_delete st pid nowIso idxOk).1 =
        .ok ("Deleted: " ++ (baseIdOf pid ++ "-ko"))) ∧
    (∀ cko cen, ghGetFile st (baseIdOf pid ++ "-ko" ++ ".txt") = some cko →
      ghGetFile st (baseIdOf pid ++ "-en" ++ ".txt") = some cen →
      (admin_delete st pid nowIso idxOk).1 =
        .ok ("Deleted: " ++ (baseIdOf pid ++ "-ko") ++ ", " ++ (baseIdOf pid ++ "-en"))) := by
  refine ⟨?_, ?_, ?_, ?_⟩
  · intro hko hen
    unfold admin_delete
    simp only [hpid, if_false, List.foldl, hko, hen]
    rfl
  · intro c hko hen
    unfold admin_delete
    simp only [hpid, if_false, List.foldl, hko]
    simp only [hen]
    simp [joinStrS, joinStr, strMk_data]
    rfl
  · intro c hko hen
    unfold admin_delete
    simp only [hpid, if_false, List.foldl, hko]
    rw [ghGetFile_files
        (remove_post_from_index (ghDeleteFile st (baseIdOf pid ++ "-ko" ++ ".txt"))
          (baseIdOf pid ++ "-ko") nowIso idxOk)
        (ghDeleteFile st (baseIdOf pid ++ "-ko" ++ ".txt"))
        (remove_post_from_index_files (ghDeleteFile st (baseIdOf pid ++ "-ko" ++ ".txt"))
          (baseIdOf pid ++ "-ko") nowIso idxOk)
        (baseIdOf pid ++ "-en" ++ ".txt"),
      ghGetFile_delete_ne st (baseIdOf pid ++ "-ko" ++ ".txt") (baseIdOf pid ++ "-en" ++ ".txt")
        (en_txt_ne_ko_txt (baseIdOf pid)),
      hen]
    simp [joinStrS, joinStr, strMk_data]
    rfl
  · intro cko cen hko hen
    unfold admin_delete
    simp only [hpid, if_false, List.foldl, hko]
    rw [ghGetFile_files
        (remove_post_from_index (ghDeleteFile st (baseIdOf pid ++ "-ko" ++ ".txt"))
          (baseIdOf pid ++ "-ko") nowIso idxOk)
        (ghDeleteFile st (baseIdOf pid ++ "-ko" ++ ".txt"))
        (remove_post_from_index_files (ghDeleteFile st (baseIdOf pid ++ "-ko" ++ ".txt"))
          (baseIdOf pid ++ "-ko") nowIso idxOk)
        (baseIdOf pid ++ "-en" ++ ".txt"),
      ghGetFile_delete_ne st (baseIdOf pid ++ "-ko" ++ ".txt") (baseIdOf pid ++ "-en" ++ ".txt")
        (en_txt_ne_ko_txt (baseIdOf pid)),
      hen]
    simp only [joinStrS_pair]
    rfl

/-- Witness for c3_amended at concrete stores covering all four quadrants:
both halves absent (error, state untouched), EN only, KO only, and both
present. -/
theorem c3_amended_witness :
    admin_delete ⟨[], none, ⟨none, 0, 60⟩⟩ "x" "t" true =
      (.error "Failed to delete posts", (⟨[], none, ⟨none, 0, 60⟩⟩ : BlogSt)) ∧
    (admin_delete ⟨[("a-en.txt", "y")], none, ⟨none, 0, 60⟩⟩ "a" "t" true).1 =
      .ok "Deleted: a-en" ∧
    (admin_delete ⟨[("a-ko.txt", "x")], none, ⟨none, 0, 60⟩⟩ "a" "t" true).1 =
      .ok "Deleted: a-ko" ∧
    (admin_delete ⟨[("a-ko.txt", "x"), ("a-en.txt", "y")], none, ⟨none, 0, 60⟩⟩ "a" "t" true).1 =
      .ok "Deleted: a-ko, a-en" :=
  ⟨(c3_amended ⟨[], none, ⟨none, 0, 60⟩⟩ "x" "t" true (by decide)).1 (by decide) (by decide),
   ((c3_amended ⟨[("a-en.txt", "y")], none, ⟨none, 0, 60⟩⟩ "a" "t" true (by decide)).2.1
     "y" (by decide) (by decide)).trans (by decide),
   ((c3_amended ⟨[("a-ko.txt", "x")], none, ⟨none, 0, 60⟩⟩ "a" "t" true (by decide)).2.2.1
     "x" (by decide) (by decide)).trans (by decide),
   ((c3_amended ⟨[("a-ko.txt", "x"), ("a-en.txt", "y")], none, ⟨none, 0, 60⟩⟩ "a" "t" true
     (by decide)).2.2.2 "x" "y" (by decide) (by decide)).trans (by decide)⟩

/-! ### Claim C10 -/

theorem load_posts_lang_split (st : BlogSt) (now : Nat) (iso : String)
    (ok : Bool) (lang : Option String) :
    load_posts st now iso ok lang =
      (langFilter lang (load_posts st now iso ok none).1,
       (load_posts st now iso ok none).2) := by
  unfold load_posts
  by_cases h : cacheHit st.cache now = true
  · simp [h, langFilter_none]
  · simp only [Bool.not_eq_true] at h
    simp [h, langFilter_none]

theorem load_posts_hit (st : BlogSt) (now : Nat) (iso : String) (ok : Bool)
    (lang : Option String) (h : cacheHit st.cache now = true) :
    load_posts st now iso ok lang = (langFilter lang (st.cache.data.getD []), st) := by
  unfold load_posts
  simp [h]

theorem load_posts_cache_stores_full (st : BlogSt) (now : Nat) (iso : String)
    (ok : Bool) :
    (load_posts st now iso ok none).2.cache.data =
      some ((load_posts st now iso ok none).1) := by
  unfold load_posts
  by_cases h : cacheHit st.cache now = true
  · have hs : st.cache.data.isSome = true := ((Bool.and_eq_true _ _).mp h).1
    obtain ⟨x, hx⟩ := Option.isSome_iff_exists.mp hs
    simp [h, hx, langFilter_none]
  · simp only [Bool.not_eq_true] at h
    simp [h, langFilter_none]

/-- C10: the cache always stores the full unfiltered bilingual list; the
language filter is applied only to the returned value, so a ko-filtered call
populating the cache never hides English posts from a later en-filtered call
inside the ttl window. -/
theorem c10_cache_language_agnostic (st : BlogSt) (now now2 : Nat)
    (iso iso2 : String) (ok ok2 : Bool) (lang : Option String)
    (hwin : now2 - (load_posts st now iso ok (some "ko")).2.cache.timestamp <
      (load_posts st now iso ok (some "ko")).2.cache.ttl) :
    (load_posts st now iso ok lang).1 =
      langFilter lang ((load_posts st now iso ok none).1) ∧
    (load_posts st now iso ok lang).2.cache.data =
      some ((load_posts st now iso ok none).1) ∧
    (load_posts (load_posts st now iso ok (some "ko")).2 now2 iso2 ok2 (some "en")).1 =
      langFilter (some "en") ((load_posts st now iso ok none).1) := by
  refine ⟨?_, ?_, ?_⟩
  · rw [load_posts_lang_split st now iso ok lang]
  · rw [load_posts_lang_split st now iso ok lang]
    exact load_posts_cache_stores_full st now iso ok
  · have hsplit := load_posts_lang_split st now iso ok (some "ko")
    have hdata : (load_posts st now iso ok (some "ko")).2.cache.data =
        some ((load_posts st now iso ok none).1) := by
      rw [hsplit]; exact load_posts_cache_stores_full st now iso ok
    have hhit : cacheHit (load_posts st now iso ok (some "ko")).2.cache now2 = true := by
      unfold cacheHit
      rw [hdata]
      simp [hwin]
    rw [load_posts_hit _ now2 iso2 ok2 _ hhit, hdata]
    rfl

/-- Witness for c10 on a concrete bilingual index within the ttl window. -/
theorem c10_witness :
    (load_posts
      (load_posts ⟨[], some ⟨[⟨"a-ko", "t", "d", "c", [], "", some "ko"⟩,
        ⟨"a-en", "t", "d", "c", [], "", some "en"⟩], "u"⟩, ⟨none, 0, 60⟩⟩
        5 "i" true (some "ko")).2 10 "i2" true (some "en")).1 =
      langFilter (some "en")
        ((load_posts ⟨[], some ⟨[⟨"a-ko", "t", "d", "c", [], "", some "ko"⟩,
          ⟨"a-en", "t", "d", "c", [], "", some "en"⟩], "u"⟩, ⟨none, 0, 60⟩⟩
          5 "i" true none).1) :=
  (c10_cache_language_agnostic
    ⟨[], some ⟨[⟨"a-ko", "t", "d", "c", [], "", some "ko"⟩,
      ⟨"a-en", "t", "d", "c", [], "", some "en"⟩], "u"⟩, ⟨none, 0, 60⟩⟩
    5 10 "i" "i2" true true none (by decide)).2.2

/-! ### Claim C1 -/

/-- C1 counterexample: populate the cache through the legacy path while the
index write fails (the index document stays absent), then run a successful
admin_update.  update_post_in_index returns early because the index is
absent, so the cache is not invalidated: the next load_posts inside the ttl
window is a cache hit serving the stale pre-update list. -/
theorem c1_counterexample :
    let st0 : BlogSt := ⟨[("2025-01-01-001-ko.txt", "Hi\n\nBody")], none, ⟨none, 0, 60⟩⟩
    let st1 := (load_posts st0 10 "T0" false none).2
    let upd := admin_update st1 "2025-01-01-001-ko" "New" "NewBody" "" ""
      (some ("NewT", "NewC")) "T1" true
    upd.1 = .ok "Updated (KO + EN)" ∧
    upd.2.cache = st1.cache ∧
    (load_posts upd.2 30 "T2" true none).2 = upd.2 ∧
    (load_posts upd.2 30 "T2" true none).1.map Post.title = ["Hi"] := by decide

theorem publish_ok_cache (st st1 : BlogSt) (today a b c d e f iso : String)
    (ok : Bool) (u : Unit)
    (hp : publish_to_github st today a b c d e f iso ok = (.ok u, st1)) :
    st1.cache.data = none := by
  unfold publish_to_github at hp
  dsimp only at hp
  split at hp
  · simp at hp
  · split at hp
    · simp at hp
    · simp only [Prod.mk.injEq] at hp
      rw [← hp.2]
      exact add_post_to_index_cache_data _ _ _ _ _

/-- C1 amended: publish always invalidates the cache; a successful update or
delete invalidates the cache provided the index document exists at the time
of the call (when it is absent, update_post_in_index and
remove_post_from_index return early without invalidating); and whenever the
cache is empty the next load_posts call re-fetches from the index store
(falling back to the legacy scan) and stamps the current time. -/
theorem c1_amended (st : BlogSt) (nowIso : String) (idxOk : Bool) :
    (∀ tko cko tags img tr today msg st2,
        admin_publish st tko cko tags img tr today nowIso idxOk = (.ok msg, st2) →
        st2.cache.data = none) ∧
    (∀ idx, st.index = some idx →
      (∀ pid t c tags img tr msg st2,
          admin_update st pid t c tags img tr nowIso idxOk = (.ok msg, st2) →
          st2.cache.data = none) ∧
      (∀ pid msg st2,
          admin_delete st pid nowIso idxOk = (.ok msg, st2) →
          st2.cache.data = none)) ∧
    (∀ (now : Nat) (lang : Option String), st.cache.data = none →
      (load_posts st now nowIso idxOk lang).2.cache.timestamp = now ∧
      (load_posts st now nowIso idxOk lang).1 =
        langFilter lang (match st.index with
          | some idx => idx.posts
          | none => load_posts_legacy st)) := by
  refine ⟨?_, ?_, ?_⟩
  · intro tko cko tags img tr today msg st2 h
    unfold admin_publish at h
    split at h
    · simp at h
    · cases tr with
      | none => simp at h
      | some p =>
        simp only at h
        rcases hp : publish_to_github st today tko cko p.1 p.2 tags img nowIso idxOk
          with ⟨r, st1⟩
        rw [hp] at h
        cases r with
        | error e => simp at h
        | ok u =>
          simp only [Prod.mk.injEq] at h
          rw [← h.2]
          exact publish_ok_cache st st1 today tko cko p.1 p.2 tags img nowIso idxOk u hp
  · intro idx hidx
    constructor
    · intro pid t c tags img tr msg st2 h
      unfold admin_update at h
      split at h
      · simp at h
      · cases tr with
        | none => simp at h
        | some p =>
          simp only at h
          split at h
          · simp at h
          · simp only [Prod.mk.injEq] at h
            rw [← h.2]
            -- the state before the first index patch keeps the input index
            generalize hmid :
              (match ghGetFile (ghReplaceFile st (baseIdOf pid ++ "-ko.txt")
                  (t ++ "\n" ++ metaLinesFor tags img ++ "\n" ++ c))
                  (baseIdOf pid ++ "-en.txt") with
                | some _ => ghReplaceFile (ghReplaceFile st (baseIdOf pid ++ "-ko.txt")
                    (t ++ "\n" ++ metaLinesFor tags img ++ "\n" ++ c))
                    (baseIdOf pid ++ "-en.txt")
                    (p.1 ++ "\n" ++ metaLinesFor tags img ++ "\n" ++ p.2)
                | none => { ghReplaceFile st (baseIdOf pid ++ "-ko.txt")
                    (t ++ "\n" ++ metaLinesFor tags img ++ "\n" ++ c) with
                    files := (ghReplaceFile st (baseIdOf pid ++ "-ko.txt")
                      (t ++ "\n" ++ metaLinesFor tags img ++ "\n" ++ c)).files ++
                      [(baseIdOf pid ++ "-en.txt",
                        p.1 ++ "\n" ++ metaLinesFor tags img ++ "\n" ++ p.2)] }) = stMid
            have hmidIdx : stMid.index = some idx := by
              rw [← hmid]
              split <;> exact hidx
            obtain ⟨idx2, hidx2⟩ := update_post_in_index_index stMid
              (baseIdOf pid ++ "-ko")
              ⟨t, c, parseTagsS tags, img, dateOfId (baseIdOf pid)⟩ nowIso idxOk idx hmidIdx
            exact update_post_in_index_cache_data _ _ _ _ _ idx2 hidx2
    · intro pid msg st2 h
      unfold admin_delete at h
      split at h
      · simp at h
      · simp only [List.foldl] at h
        cases hko : ghGetFile st (baseIdOf pid ++ "-ko" ++ ".txt") with
        | none =>
          rw [hko] at h
          cases hen : ghGetFile st (baseIdOf pid ++ "-en" ++ ".txt") with
          | none => rw [hen] at h; simp at h
          | some cc =>
            rw [hen] at h
            simp only at h
            split at h
            · simp only [Prod.mk.injEq] at h
              rw [← h.2]
              exact remove_post_from_index_cache_data
                (ghDeleteFile st (baseIdOf pid ++ "-en" ++ ".txt"))
                (baseIdOf pid ++ "-en") nowIso idxOk idx
                ((ghDeleteFile_index st (baseIdOf pid ++ "-en" ++ ".txt")).trans hidx)
            · simp at h
        | some cc =>
          rw [hko] at h
          simp only at h
          have hidxDel : (ghDeleteFile st (baseIdOf pid ++ "-ko" ++ ".txt")).index =
              some idx :=
            (ghDeleteFile_index st (baseIdOf pid ++ "-ko" ++ ".txt")).trans hidx
          obtain ⟨idx2, hidx2⟩ := remove_post_from_index_index
            (ghDeleteFile st (baseIdOf pid ++ "-ko" ++ ".txt"))
            (baseIdOf pid ++ "-ko") nowIso idxOk idx hidxDel
          cases hen : ghGetFile (remove_post_from_index
              (ghDeleteFile st (baseIdOf pid ++ "-ko" ++ ".txt"))
              (baseIdOf pid ++ "-ko") nowIso idxOk) (baseIdOf pid ++ "-en" ++ ".txt") with
          | none =>
            rw [hen] at h
            split at h
            · simp only [Prod.mk.injEq] at h
              rw [← h.2]
              exact remove_post_from_index_cache_data
                (ghDeleteFile st (baseIdOf pid ++ "-ko" ++ ".txt"))
                (baseIdOf pid ++ "-ko") nowIso idxOk idx hidxDel
            · simp at h
          | some cc2 =>
            rw [hen] at h
            simp only at h
            split at h
            · simp only [Prod.mk.injEq] at h
              rw [← h.2]
              refine remove_post_from_index_cache_data _ _ _ _ idx2 ?_
              exact (ghDeleteFile_index (remove_post_from_index
                (ghDeleteFile st (baseIdOf pid ++ "-ko" ++ ".txt"))
                (baseIdOf pid ++ "-ko") nowIso idxOk)
                (baseIdOf pid ++ "-en" ++ ".txt")).trans hidx2
            · simp at h
  · intro now lang hnone
    have hmiss : cacheHit st.cache now = false := by
      unfold cacheHit
      rw [hnone]
      rfl
    unfold load_posts
    rw [hmiss]
    cases hidx : st.index with
    | some idx => simp
    | none =>
      by_cases hleg : load_posts_legacy st = []
      · simp [hleg]
      · simp [hleg]

/-- Witness for c1_amended: a successful publish clears the cache, a
successful update with the index present clears the cache, and with an empty
cache the next load_posts re-fetches the index posts. -/
theorem c1_amended_witness :
    ((admin_publish ⟨[("2025-01-01-001-ko.txt", "x")], some ⟨[], "u"⟩, ⟨some [], 5, 60⟩⟩
        "t" "c" "" "" (some ("T", "C")) "2026-01-10" "iso" true).2.cache.data = none) ∧
    ((admin_update ⟨[("2025-01-01-001-ko.txt", "x")], some ⟨[], "u"⟩, ⟨some [], 5, 60⟩⟩
        "2025-01-01-001-ko" "T" "C" "" "" (some ("TE", "CE")) "iso" true).2.cache.data = none) ∧
    ((admin_delete ⟨[("2025-01-01-001-ko.txt", "x")], some ⟨[], "u"⟩, ⟨some [], 5, 60⟩⟩
        "2025-01-01-001" "iso" true).2.cache.data = none) ∧
    ((load_posts ⟨[], some ⟨[], "u"⟩, ⟨none, 0, 60⟩⟩ 7 "iso" true none).2.cache.timestamp = 7) := by
  refine ⟨?_, ?_, ?_, ?_⟩
  · exact (c1_amended ⟨[("2025-01-01-001-ko.txt", "x")], some ⟨[], "u"⟩, ⟨some [], 5, 60⟩⟩
      "iso" true).1 "t" "c" "" "" (some ("T", "C")) "2026-01-10" "Published!" _ (by decide)
  · exact ((c1_amended ⟨[("2025-01-01-001-ko.txt", "x")], some ⟨[], "u"⟩, ⟨some [], 5, 60⟩⟩
      "iso" true).2.1 ⟨[], "u"⟩ (by decide)).1 "2025-01-01-001-ko" "T" "C" "" ""
      (some ("TE", "CE")) "Updated (KO + EN)" _ (by decide)
  · exact ((c1_amended ⟨[("2025-01-01-001-ko.txt", "x")], some ⟨[], "u"⟩, ⟨some [], 5, 60⟩⟩
      "iso" true).2.1 ⟨[], "u"⟩ (by decide)).2 "2025-01-01-001"
      "Deleted: 2025-01-01-001-ko" _ (by decide)
  · exact ((c1_amended ⟨[], some ⟨[], "u"⟩, ⟨none, 0, 60⟩⟩ "iso" true).2.2 7 none rfl).1

/-! ### Claim C6 -/

theorem count_zero_ko_absent (st : BlogSt)
    (hcount : get_existing_posts_count st "2026-01-10" = 0) :
    st.files.find? (fun f => f.1 = "2026-01-10-001-ko.txt") = none := by
  cases hf : st.files.find? (fun f => f.1 = "2026-01-10-001-ko.txt") with
  | none => rfl
  | some f =>
    exfalso
    have hp : f.1 = "2026-01-10-001-ko.txt" := by
      have := List.find?_some hf
      simpa using this
    have hm : f ∈ st.files := List.mem_of_find?_eq_some hf
    have hmem : f ∈ st.files.filter
        (fun f => startsWithS f.1 "2026-01-10" && endsWithS f.1 "-ko.txt") := by
      refine List.mem_filter.mpr ⟨hm, ?_⟩
      rw [hp]
      decide
    unfold get_existing_posts_count at hcount
    rw [List.length_eq_zero.mp hcount] at hmem
    exact List.not_mem_nil f hmem

/-- C6: publishing the concrete bilingual pair on 2026-01-10 with no
existing post that day writes exactly the two files
2026-01-10-001-ko.txt and 2026-01-10-001-en.txt (sequence 001 = count + 1)
and prepends the two index entries sharing the 2026-01-10-001 id stem. -/
theorem c6_publish_first_of_day (st : BlogSt) (iso : String)
    (hcount : get_existing_posts_count st "2026-01-10" = 0)
    (hen : ghGetFile st "2026-01-10-001-en.txt" = none) :
    publish_to_github st "2026-01-10" "제목" "내용" "Title" "Content" "" "" iso true =
      (.ok (),
        { files := st.files ++
            [("2026-01-10-001-ko.txt", "제목\n\n내용"),
             ("2026-01-10-001-en.txt", "Title\n\nContent")]
          index := some ⟨
            { id := "2026-01-10-001-ko"
              title := "제목"
              date := "2026-01-10"
              content := "내용"
              tags := []
              image_url := ""
              lang := some "ko" } ::
            { id := "2026-01-10-001-en"
              title := "Title"
              date := "2026-01-10"
              content := "Content"
              tags := []
              image_url := ""
              lang := some "en" } ::
            (st.index.getD ⟨[], ""⟩).posts, iso⟩
          cache := invalidate_cache st.cache }) := by
  have hko := count_zero_ko_absent st hcount
  have henf : st.files.find? (fun f => f.1 = "2026-01-10-001-en.txt") = none := by
    unfold ghGetFile at hen
    cases hf : st.files.find? (fun f => f.1 = "2026-01-10-001-en.txt") with
    | none => rfl
    | some f => rw [hf] at hen; simp at hen
  have hen2 : (st.files ++ [("2026-01-10-001-ko.txt", "제목\n\n내용")]).find?
      (fun f => f.1 = "2026-01-10-001-en.txt") = none := by
    rw [List.find?_append, henf]
    rfl
  unfold publish_to_github
  rw [hcount]
  simp only [
    show ("2026-01-10" ++ "-" ++ seq3 (0 + 1) ++ "-ko.txt") = "2026-01-10-001-ko.txt" from rfl,
    show ("2026-01-10" ++ "-" ++ seq3 (0 + 1) ++ "-en.txt") = "2026-01-10-001-en.txt" from rfl,
    show ("제목" ++ "\n" ++ metaLinesFor "" "" ++ "\n" ++ "내용") = "제목\n\n내용" from rfl,
    show ("Title" ++ "\n" ++ metaLinesFor "" "" ++ "\n" ++ "Content") = "Title\n\nContent" from rfl]
  unfold ghCreateFile
  rw [hko]
  simp only [Option.isSome_none, Bool.false_eq_true, if_false]
  rw [hen2]
  simp only [Option.isSome_none, Bool.false_eq_true, if_false]
  unfold add_post_to_index save_posts_index invalidate_cache
  simp [List.append_assoc]
  decide

/-- Witness for c6 on the empty store. -/
theorem c6_witness :
    publish_to_github ⟨[], none, ⟨none, 0, 60⟩⟩ "2026-01-10" "제목" "내용" "Title" "Content"
        "" "" "iso" true =
      (.ok (),
        ⟨[("2026-01-10-001-ko.txt", "제목\n\n내용"),
          ("2026-01-10-001-en.txt", "Title\n\nContent")],
         some ⟨[⟨"2026-01-10-001-ko", "제목", "2026-01-10", "내용", [], "", some "ko"⟩,
                ⟨"2026-01-10-001-en", "Title", "2026-01-10", "Content", [], "", some "en"⟩],
               "iso"⟩,
         ⟨none, 0, 60⟩⟩) :=
  (c6_publish_first_of_day ⟨[], none, ⟨none, 0, 60⟩⟩ "iso" (by decide) (by decide)).trans
    (by decide)

/-! ### Strip lemmas for the codec round trip -/

theorem dropWhile_eq_cons_head {p : α → Bool} {l : List α} {c : α} {cs : List α}
    (h : l.dropWhile p = c :: cs) : p c = false := by
  induction l with
  | nil => simp [List.dropWhile] at h
  | cons a as ih =>
    by_cases hp : p a = true
    · rw [List.dropWhile_cons_of_pos hp] at h
      exact ih h
    · rw [List.dropWhile_cons_of_neg hp] at h
      injection h with h1 h2
      rw [h1] at hp
      simpa using hp

theorem dropWhile_cons_self {p : α → Bool} {c : α} {cs : List α}
    (h : (c :: cs).dropWhile p = c :: cs) : p c = false :=
  dropWhile_eq_cons_head h

theorem pyLStrip_idem (l : List Char) : pyLStrip (pyLStrip l) = pyLStrip l := by
  unfold pyLStrip
  cases h : l.dropWhile pyIsSpace with
  | nil => rfl
  | cons c cs =>
    exact List.dropWhile_cons_of_neg (by rw [dropWhile_eq_cons_head h]; simp)

theorem pyRStrip_reverse_eq (l : List Char) :
    (pyRStrip l).reverse = l.reverse.dropWhile pyIsSpace := by
  unfold pyRStrip
  rw [List.reverse_reverse]

theorem pyRStrip_idem (l : List Char) : pyRStrip (pyRStrip l) = pyRStrip l := by
  unfold pyRStrip
  rw [List.reverse_reverse]
  have : (l.reverse.dropWhile pyIsSpace).dropWhile pyIsSpace = l.reverse.dropWhile pyIsSpace := by
    cases h : l.reverse.dropWhile pyIsSpace with
    | nil => rfl
    | cons c cs =>
      exact List.dropWhile_cons_of_neg (by rw [dropWhile_eq_cons_head h]; simp)
  rw [this]

theorem pyRStrip_cons (c : Char) (l : List Char) :
    pyRStrip (c :: l) =
      if pyRStrip l = [] then (if pyIsSpace c then [] else [c])
      else c :: pyRStrip l := by
  by_cases h0 : pyRStrip l = []
  · have hdw : l.reverse.dropWhile pyIsSpace = [] := by
      have h2 := congrArg List.reverse h0
      rw [pyRStrip_reverse_eq] at h2
      simpa using h2
    rw [if_pos h0]
    show ((c :: l).reverse.dropWhile pyIsSpace).reverse = _
    rw [show (c :: l).reverse = l.reverse ++ [c] from by simp]
    rw [List.dropWhile_append, hdw]
    by_cases hc : pyIsSpace c = true <;> simp [List.dropWhile, hc]
  · have hdw : (l.reverse.dropWhile pyIsSpace).isEmpty = false := by
      cases hx : l.reverse.dropWhile pyIsSpace with
      | nil =>
        exfalso
        apply h0
        unfold pyRStrip
        rw [hx]
        rfl
      | cons x xs => rfl
    rw [if_neg h0]
    show ((c :: l).reverse.dropWhile pyIsSpace).reverse = _
    rw [show (c :: l).reverse = l.reverse ++ [c] from by simp]
    rw [List.dropWhile_append, hdw]
    simp [pyRStrip_reverse_eq]
    rw [← pyRStrip_reverse_eq]
    simp

theorem pyLStrip_pyRStrip_comm (l : List Char) :
    pyLStrip (pyRStrip l) = pyRStrip (pyLStrip l) := by
  induction l with
  | nil => rfl
  | cons c cs ih =>
    by_cases hc : pyIsSpace c = true
    · rw [pyRStrip_cons]
      rw [show pyLStrip (c :: cs) = pyLStrip cs from List.dropWhile_cons_of_pos hc]
      by_cases h0 : pyRStrip cs = []
      · rw [if_pos h0, if_pos hc]
        rw [← ih, h0]
      · rw [if_neg h0]
        rw [show pyLStrip (c :: pyRStrip cs) = pyLStrip (pyRStrip cs) from
          List.dropWhile_cons_of_pos hc]
        exact ih
    · rw [pyRStrip_cons]
      rw [show pyLStrip (c :: cs) = c :: cs from List.dropWhile_cons_of_neg (by simp [hc])]
      rw [pyRStrip_cons]
      by_cases h0 : pyRStrip cs = []
      · rw [if_pos h0, if_neg (by simp [hc])]
        exact List.dropWhile_cons_of_neg (by simp [hc])
      · rw [if_neg h0]
        exact List.dropWhile_cons_of_neg (by simp [hc])

theorem pyStrip_idem (l : List Char) : pyStrip (pyStrip l) = pyStrip l := by
  unfold pyStrip
  rw [pyLStrip_pyRStrip_comm, pyRStrip_idem, pyLStrip_idem]

theorem pyStrip_lstripped (l : List Char) : pyLStrip (pyStrip l) = pyStrip l := by
  unfold pyStrip
  rw [pyLStrip_pyRStrip_comm, pyLStrip_idem]

theorem pyStrip_rstripped (l : List Char) : pyRStrip (pyStrip l) = pyStrip l := by
  unfold pyStrip
  rw [pyRStrip_idem]

theorem stripped_left {l : List Char} (h : pyStrip l = l) : pyLStrip l = l := by
  conv_lhs => rw [← h]
  rw [pyStrip_lstripped, h]

theorem stripped_right {l : List Char} (h : pyStrip l = l) : pyRStrip l = l := by
  conv_lhs => rw [← h]
  rw [pyStrip_rstripped, h]

theorem pyLStrip_append {a : List Char} (b : List Char)
    (ha : pyLStrip a = a) (hane : a ≠ []) : pyLStrip (a ++ b) = a ++ b := by
  cases a with
  | nil => exact absurd rfl hane
  | cons c cs =>
    have hc : pyIsSpace c = false := dropWhile_cons_self ha
    show pyLStrip (c :: (cs ++ b)) = _
    rw [show pyLStrip (c :: (cs ++ b)) = c :: (cs ++ b) from
      List.dropWhile_cons_of_neg (by simp [hc])]
    rfl

theorem pyRStrip_append {b : List Char} (a : List Char)
    (hb : pyRStrip b = b) (hbne : b ≠ []) : pyRStrip (a ++ b) = a ++ b := by
  unfold pyRStrip
  rw [List.reverse_append]
  have hbr : b.reverse.dropWhile pyIsSpace = b.reverse := by
    have := congrArg List.reverse hb
    rw [pyRStrip_reverse_eq] at this
    rw [this]
  have hne : (b.reverse.dropWhile pyIsSpace).isEmpty = false := by
    rw [hbr]
    cases hb2 : b.reverse with
    | nil => exact absurd (List.reverse_eq_nil_iff.mp hb2) hbne
    | cons x xs => rfl
  rw [List.dropWhile_append, hne]
  simp [hbr]

theorem pyRStrip_append_ws {w : List Char} (a : List Char)
    (hw : ∀ c ∈ w, pyIsSpace c = true) : pyRStrip (a ++ w) = pyRStrip a := by
  unfold pyRStrip
  rw [List.reverse_append]
  rw [List.dropWhile_append_of_pos (by intro x hx; exact hw x (List.mem_reverse.mp hx))]

theorem pyStrip_cons_ws {c : Char} (l : List Char) (h : pyIsSpace c = true) :
    pyStrip (c :: l) = pyStrip l := by
  unfold pyStrip
  rw [show pyLStrip (c :: l) = pyLStrip l from List.dropWhile_cons_of_pos h]

theorem pyLStrip_sublist (l : List Char) : List.Sublist (pyLStrip l) l :=
  List.dropWhile_sublist pyIsSpace

theorem pyRStrip_sublist (l : List Char) : List.Sublist (pyRStrip l) l := by
  have h := (List.dropWhile_sublist pyIsSpace : List.Sublist (l.reverse.dropWhile pyIsSpace) l.reverse).reverse
  rw [List.reverse_reverse] at h
  exact h

theorem pyStrip_sublist (l : List Char) : List.Sublist (pyStrip l) l :=
  (pyRStrip_sublist (pyLStrip l)).trans (pyLStrip_sublist l)

theorem not_mem_pyStrip {c : Char} {l : List Char} (h : c ∉ l) : c ∉ pyStrip l :=
  fun hc => h ((pyStrip_sublist l).subset hc)

theorem not_mem_pyRStrip {c : Char} {l : List Char} (h : c ∉ l) : c ∉ pyRStrip l :=
  fun hc => h ((pyRStrip_sublist l).subset hc)

theorem pyStrip_reverse (l : List Char) : pyStrip (l.reverse) = (pyStrip l).reverse := by
  show pyRStrip (pyLStrip l.reverse) = _
  have h1 : pyLStrip (l.reverse) = (pyRStrip l).reverse := by
    unfold pyLStrip pyRStrip
    rw [List.reverse_reverse]
  rw [h1]
  have h2 : pyRStrip ((pyRStrip l).reverse) = (pyLStrip (pyRStrip l)).reverse := by
    unfold pyRStrip pyLStrip
    rw [List.reverse_reverse]
  rw [h2, pyLStrip_pyRStrip_comm]
  rfl

/-! ### Split and join lemmas for the codec round trip -/

theorem pySplit_ne_nil (sep : Char) (l : List Char) : pySplit sep l ≠ [] := by
  cases l with
  | nil => simp [pySplit]
  | cons c cs =>
    by_cases h : c = sep
    · simp [pySplit, h]
    · simp only [pySplit, h, if_false]
      cases hx : pySplit sep cs with
      | nil => simp
      | cons a b => simp

theorem pySplit_cons_of_sep (sep : Char) (cs : List Char) :
    pySplit sep (sep :: cs) = [] :: pySplit sep cs := by
  simp [pySplit]

theorem pySplit_cons_of_ne (sep c : Char) (cs : List Char) (h : c ≠ sep) :
    pySplit sep (c :: cs) =
      match pySplit sep cs with
      | hd :: t => (c :: hd) :: t
      | [] => [[c]] := by
  simp [pySplit, h]

theorem pySplit_sepFree (sep : Char) (l : List Char) (h : sep ∉ l) :
    pySplit sep l = [l] := by
  induction l with
  | nil => rfl
  | cons c cs ih =>
    have hc : c ≠ sep := fun he => h (he ▸ List.mem_cons_self c cs)
    rw [pySplit_cons_of_ne sep c cs hc]
    rw [ih (fun hm => h (List.mem_cons_of_mem c hm))]

theorem pySplit_glue (sep : Char) (a r : List Char) (h : sep ∉ a) :
    pySplit sep (a ++ sep :: r) = a :: pySplit sep r := by
  induction a with
  | nil => simp [pySplit_cons_of_sep]
  | cons c cs ih =>
    have hc : c ≠ sep := fun he => h (he ▸ List.mem_cons_self c cs)
    show pySplit sep (c :: (cs ++ sep :: r)) = _
    rw [pySplit_cons_of_ne sep c _ hc]
    rw [ih (fun hm => h (List.mem_cons_of_mem c hm))]

theorem joinStr_pySplit (sep : Char) (l : List Char) :
    joinStr [sep] (pySplit sep l) = l := by
  induction l with
  | nil => rfl
  | cons c cs ih =>
    by_cases h : c = sep
    · subst h
      rw [pySplit_cons_of_sep]
      cases hx : pySplit c cs with
      | nil => exact absurd hx (pySplit_ne_nil c cs)
      | cons a b =>
        show [] ++ [c] ++ joinStr [c] (a :: b) = c :: cs
        rw [hx] at ih
        simp [ih]
    · rw [pySplit_cons_of_ne sep c cs h]
      cases hx : pySplit sep cs with
      | nil => exact absurd hx (pySplit_ne_nil sep cs)
      | cons a b =>
        rw [hx] at ih
        cases b with
        | nil =>
          show c :: a = c :: cs
          rw [show joinStr [sep] [a] = a from rfl] at ih
          rw [ih]
        | cons b2 bs =>
          show (c :: a) ++ [sep] ++ joinStr [sep] (b2 :: bs) = c :: cs
          rw [← ih]
          rfl

theorem pySplit_joinStr (sep : Char) (L : List (List Char)) (hL : L ≠ [])
    (h : ∀ x ∈ L, sep ∉ x) :
    pySplit sep (joinStr [sep] L) = L := by
  induction L with
  | nil => exact absurd rfl hL
  | cons a r ih =>
    cases r with
    | nil =>
      show pySplit sep a = [a]
      exact pySplit_sepFree sep a (h a (List.mem_cons_self a []))
    | cons b rs =>
      show pySplit sep (a ++ [sep] ++ joinStr [sep] (b :: rs)) = a :: b :: rs
      rw [List.append_assoc]
      show pySplit sep (a ++ sep :: joinStr [sep] (b :: rs)) = a :: b :: rs
      rw [pySplit_glue sep a _ (h a (List.mem_cons_self a _))]
      rw [ih (by simp) (fun x hx => h x (List.mem_cons_of_mem a hx))]

theorem mem_pySplit_sepFree (sep : Char) (l : List Char) :
    ∀ x ∈ pySplit sep l, sep ∉ x := by
  induction l with
  | nil =>
    intro x hx
    simp [pySplit] at hx
    simp [hx]
  | cons c cs ih =>
    intro x hx
    by_cases h : c = sep
    · subst h
      rw [pySplit_cons_of_sep] at hx
      cases hx with
      | head => simp
      | tail _ hm => exact ih x hm
    · rw [pySplit_cons_of_ne sep c cs h] at hx
      cases he : pySplit sep cs with
      | nil => exact absurd he (pySplit_ne_nil sep cs)
      | cons a b =>
        rw [he] at hx
        cases hx with
        | head =>
          intro hm
          cases hm with
          | head => exact h rfl
          | tail _ hm2 => exact ih a (he ▸ List.mem_cons_self a b) hm2
        | tail _ hm => exact ih x (he ▸ List.mem_cons_of_mem a hm)

theorem pySplit_sublist (sep : Char) (l : List Char) :
    ∀ x ∈ pySplit sep l, List.Sublist x l := by
  induction l with
  | nil =>
    intro x hx
    simp [pySplit] at hx
    simp [hx]
  | cons c cs ih =>
    intro x hx
    by_cases h : c = sep
    · subst h
      rw [pySplit_cons_of_sep] at hx
      cases hx with
      | head => exact List.nil_sublist _
      | tail _ hm => exact (ih x hm).cons c
    · rw [pySplit_cons_of_ne sep c cs h] at hx
      cases he : pySplit sep cs with
      | nil => exact absurd he (pySplit_ne_nil sep cs)
      | cons a b =>
        rw [he] at hx
        cases hx with
        | head => exact (ih a (he ▸ List.mem_cons_self a b)).cons₂ c
        | tail _ hm => exact ((ih x (he ▸ List.mem_cons_of_mem a hm))).cons c

theorem pySplit_append_single (sep : Char) (m : List Char) (c : Char) :
    pySplit sep (m ++ [c]) =
      if c = sep then pySplit sep m ++ [[]]
      else appendLast c (pySplit sep m) := by
  induction m with
  | nil =>
    by_cases h : c = sep
    · subst h
      simp [pySplit_cons_of_sep, pySplit]
    · rw [if_neg h]
      show pySplit sep [c] = _
      rw [pySplit_cons_of_ne sep c [] h]
      rfl
  | cons d m2 ih =>
    by_cases hd : d = sep
    · subst hd
      show pySplit d (d :: (m2 ++ [c])) = _
      rw [pySplit_cons_of_sep, ih, pySplit_cons_of_sep]
      by_cases h : c = d
      · rw [if_pos h, if_pos h]
        rfl
      · rw [if_neg h, if_neg h]
        cases hx : pySplit d m2 with
        | nil => exact absurd hx (pySplit_ne_nil d m2)
        | cons a b => rfl
    · show pySplit sep (d :: (m2 ++ [c])) = _
      rw [pySplit_cons_of_ne sep d _ hd, ih, pySplit_cons_of_ne sep d _ hd]
      by_cases h : c = sep
      · rw [if_pos h, if_pos h]
        cases hx : pySplit sep m2 with
        | nil => exact absurd hx (pySplit_ne_nil sep m2)
        | cons a b => rfl
      · rw [if_neg h, if_neg h]
        cases hx : pySplit sep m2 with
        | nil => exact absurd hx (pySplit_ne_nil sep m2)
        | cons a b =>
          cases b with
          | nil => rfl
          | cons b2 bs => rfl

theorem appendLast_append_single (c : Char) (X : List (List Char)) (y : List Char) :
    appendLast c (X ++ [y]) = X ++ [y ++ [c]] := by
  induction X with
  | nil => rfl
  | cons x X2 ih =>
    cases X2 with
    | nil => rfl
    | cons z Z =>
      show x :: appendLast c ((z :: Z) ++ [y]) = x :: ((z :: Z) ++ [y ++ [c]])
      rw [ih]

theorem pySplit_reverse (sep : Char) (m : List Char) :
    pySplit sep (m.reverse) = ((pySplit sep m).map List.reverse).reverse := by
  induction m with
  | nil => rfl
  | cons c cs ih =>
    rw [show (c :: cs).reverse = cs.reverse ++ [c] from by simp]
    rw [pySplit_append_single, ih]
    by_cases h : c = sep
    · subst h
      rw [if_pos rfl, pySplit_cons_of_sep]
      simp
    · rw [if_neg h, pySplit_cons_of_ne sep c cs h]
      cases hx : pySplit sep cs with
      | nil => exact absurd hx (pySplit_ne_nil sep cs)
      | cons a b =>
        show appendLast c (((a :: b).map List.reverse).reverse) = _
        rw [show ((a :: b).map List.reverse).reverse =
          (b.map List.reverse).reverse ++ [a.reverse] from by simp]
        rw [appendLast_append_single]
        simp

/-! ### Transport of per-line facts through stripping -/

theorem lines_strip_left (R : List Char → Prop) (m : List Char)
    (h : ∀ l ∈ pySplit '\n' m, R (pyStrip l)) :
    ∀ l ∈ pySplit '\n' (pyLStrip m), R (pyStrip l) := by
  induction m with
  | nil => exact h
  | cons c cs ih =>
    by_cases hc : pyIsSpace c = true
    · rw [show pyLStrip (c :: cs) = pyLStrip cs from List.dropWhile_cons_of_pos hc]
      apply ih
      intro l hl
      by_cases hnl : c = '\n'
      · subst hnl
        exact h l (by rw [pySplit_cons_of_sep]; exact List.mem_cons_of_mem [] hl)
      · cases hx : pySplit '\n' cs with
        | nil => exact absurd hx (pySplit_ne_nil _ _)
        | cons a b =>
          rw [hx] at hl
          cases hl with
          | head =>
            have hmem : (c :: l) ∈ pySplit '\n' (c :: cs) := by
              rw [pySplit_cons_of_ne '\n' c cs hnl, hx]
              exact List.mem_cons_self _ _
            have := h (c :: l) hmem
            rwa [pyStrip_cons_ws l hc] at this
          | tail _ hm =>
            refine h l ?_
            rw [pySplit_cons_of_ne '\n' c cs hnl, hx]
            exact List.mem_cons_of_mem _ hm
    · rw [show pyLStrip (c :: cs) = c :: cs from List.dropWhile_cons_of_neg (by simp [hc])]
      exact h

theorem lines_strip_right (R : List Char → Prop) (m : List Char)
    (h : ∀ l ∈ pySplit '\n' m, R (pyStrip l)) :
    ∀ l ∈ pySplit '\n' (pyRStrip m), R (pyStrip l) := by
  have hrev : ∀ l ∈ pySplit '\n' (m.reverse), R ((pyStrip l).reverse) := by
    intro l hl
    rw [pySplit_reverse] at hl
    rw [List.mem_reverse, List.mem_map] at hl
    obtain ⟨a, ha, rfl⟩ := hl
    rw [pyStrip_reverse, List.reverse_reverse]
    exact h a ha
  have hleft := lines_strip_left (fun x => R x.reverse) (m.reverse) hrev
  intro l hl
  have hL : pyLStrip (m.reverse) = (pyRStrip m).reverse := by
    unfold pyLStrip pyRStrip
    rw [List.reverse_reverse]
  have hl2 : l.reverse ∈ pySplit '\n' (pyLStrip m.reverse) := by
    rw [hL, pySplit_reverse]
    rw [List.mem_reverse, List.mem_map]
    exact ⟨l, hl, rfl⟩
  have hr := hleft l.reverse hl2
  simp only at hr
  rwa [pyStrip_reverse, List.reverse_reverse] at hr

theorem lines_strip (R : List Char → Prop) (m : List Char)
    (h : ∀ l ∈ pySplit '\n' m, R (pyStrip l)) :
    ∀ l ∈ pySplit '\n' (pyStrip m), R (pyStrip l) :=
  lines_strip_right R (pyLStrip m) (lines_strip_left R m h)

/-! ### Invariants of decode output -/

theorem parse_decomp (x : List Char) :
    parse_post_content x =
      { title := match pySplit '\n' (pyStrip x) with
          | [] => "Untitled".data
          | t :: _ => t
        content := pyStrip (joinStr ['\n']
          (scanMeta (pySplit '\n' (pyStrip x)).tail [] []).2.2)
        tags := (scanMeta (pySplit '\n' (pyStrip x)).tail [] []).1
        image := (scanMeta (pySplit '\n' (pyStrip x)).tail [] []).2.1 } := rfl

theorem parseTagsField_ok (s : List Char) :
    ∀ x ∈ parseTagsField s, pyStrip x = x ∧ x ≠ [] ∧ ',' ∉ x := by
  intro x hx
  unfold parseTagsField at hx
  rw [List.mem_filter] at hx
  obtain ⟨hmem, hne⟩ := hx
  rw [List.mem_map] at hmem
  obtain ⟨p, hp, rfl⟩ := hmem
  refine ⟨pyStrip_idem p, by simpa using hne, ?_⟩
  exact fun hm => mem_pySplit_sepFree ',' s p hp ((pyStrip_sublist p).subset hm)

theorem parseTagsField_nl (s : List Char) (hs : '\n' ∉ s) :
    ∀ x ∈ parseTagsField s, '\n' ∉ x := by
  intro x hx hm
  unfold parseTagsField at hx
  rw [List.mem_filter] at hx
  obtain ⟨hmem, -⟩ := hx
  rw [List.mem_map] at hmem
  obtain ⟨p, hp, rfl⟩ := hmem
  exact hs ((pySplit_sublist ',' s p hp).subset ((pyStrip_sublist p).subset hm))

theorem scanMeta_good (ls : List (List Char)) :
    ∀ tg im, (∀ l ∈ ls, '\n' ∉ l) →
      (∀ x ∈ tg, TagOK x) → (pyStrip im = im ∧ '\n' ∉ im) →
      (∀ x ∈ (scanMeta ls tg im).1, TagOK x) ∧
      (pyStrip (scanMeta ls tg im).2.1 = (scanMeta ls tg im).2.1 ∧
        '\n' ∉ (scanMeta ls tg im).2.1) := by
  induction ls with
  | nil => intro tg im hls htg him; exact ⟨htg, him⟩
  | cons l rest ih =>
    intro tg im hls htg him
    have hlnl : '\n' ∉ l := hls l (List.mem_cons_self _ _)
    have hrest : ∀ x ∈ rest, '\n' ∉ x := fun x hx => hls x (List.mem_cons_of_mem _ hx)
    cases ht : isTagsLine l with
    | true =>
      rw [scanMeta_cons_tags rest tg im ht]
      apply ih _ _ hrest _ him
      intro x hx
      have hdropnl : '\n' ∉ (pyStrip l).drop 5 := fun hm =>
        hlnl ((pyStrip_sublist l).subset ((List.drop_sublist 5 (pyStrip l)).subset hm))
      obtain ⟨h1, h2, h3⟩ := parseTagsField_ok _ x hx
      exact ⟨h1, h2, h3, parseTagsField_nl _ hdropnl x hx⟩
    | false =>
      cases hi : isImageLine l with
      | true =>
        rw [scanMeta_cons_image rest tg im ht hi]
        apply ih _ _ hrest htg
        refine ⟨pyStrip_idem _, ?_⟩
        intro hm
        exact hlnl ((pyStrip_sublist l).subset ((List.drop_sublist 6 (pyStrip l)).subset
          ((pyStrip_sublist _).subset hm)))
      | false =>
        rw [scanMeta_cons_other rest tg im ht hi]
        exact ih _ _ hrest htg him

theorem decode_empty (x : List Char) (h : pyStrip x = []) :
    parse_post_content x = ⟨[], [], [], []⟩ := by
  rw [parse_decomp, h]
  rfl

theorem decode_lines_nl (x : List Char) :
    ∀ l ∈ pySplit '\n' (pyStrip x), '\n' ∉ l :=
  mem_pySplit_sepFree '\n' (pyStrip x)

theorem decode_title_good (x : List Char) :
    pyLStrip (parse_post_content x).title = (parse_post_content x).title ∧
    '\n' ∉ (parse_post_content x).title ∧
    ((parse_post_content x).title = [] → pyStrip x = []) := by
  cases hm : pyStrip x with
  | nil =>
    rw [decode_empty x hm]
    refine ⟨rfl, by simp, ?_⟩
    intro
    rfl
  | cons c cs =>
    have hlc : pyIsSpace c = false := by
      have h1 : pyLStrip (pyStrip x) = pyStrip x := pyStrip_lstripped x
      rw [hm] at h1
      exact dropWhile_cons_self h1
    have hcnl : c ≠ '\n' := by
      intro he
      rw [he] at hlc
      simp [pyIsSpace] at hlc
    rw [parse_decomp, hm]
    rw [pySplit_cons_of_ne '\n' c cs hcnl]
    cases hx : pySplit '\n' cs with
    | nil => exact absurd hx (pySplit_ne_nil _ _)
    | cons a b =>
      simp only
      refine ⟨List.dropWhile_cons_of_neg (by simp [hlc]), ?_, by simp⟩
      have hmem : (c :: a) ∈ pySplit '\n' (pyStrip x) := by
        rw [hm, pySplit_cons_of_ne '\n' c cs hcnl, hx]
        exact List.mem_cons_self _ _
      exact mem_pySplit_sepFree '\n' (pyStrip x) _ hmem

theorem decode_content_stripped (x : List Char) :
    pyLStrip (parse_post_content x).content = (parse_post_content x).content ∧
    pyRStrip (parse_post_content x).content = (parse_post_content x).content := by
  rw [parse_decomp]
  exact ⟨pyStrip_lstripped _, pyStrip_rstripped _⟩

theorem decode_tags_good (x : List Char) :
    ∀ t ∈ (parse_post_content x).tags, TagOK t := by
  rw [parse_decomp]
  have h := scanMeta_good (pySplit '\n' (pyStrip x)).tail [] []
    (fun l hl => decode_lines_nl x l (List.mem_of_mem_tail hl))
    (by intro t ht; simp at ht) ⟨rfl, by simp⟩
  exact h.1

theorem decode_image_good (x : List Char) :
    pyStrip (parse_post_content x).image = (parse_post_content x).image ∧
    '\n' ∉ (parse_post_content x).image := by
  rw [parse_decomp]
  have h := scanMeta_good (pySplit '\n' (pyStrip x)).tail [] []
    (fun l hl => decode_lines_nl x l (List.mem_of_mem_tail hl))
    (by intro t ht; simp at ht) ⟨rfl, by simp⟩
  exact h.2

theorem decode_content_lines (x : List Char) :
    ∀ l ∈ pySplit '\n' (parse_post_content x).content,
      isTagsLine l = false ∧ isImageLine l = false := by
  have hcls := scanMeta_content (pySplit '\n' (pyStrip x)).tail [] []
  rw [parse_decomp]
  simp only
  cases hc : (scanMeta (pySplit '\n' (pyStrip x)).tail [] []).2.2 with
  | nil =>
    intro l hl
    have hleq : l = [] := by
      simpa [joinStr, pyStrip, pyRStrip, pyLStrip, pySplit] using hl
    rw [hleq]
    exact ⟨rfl, rfl⟩
  | cons a b =>
    intro l hl
    have hfilter : ∀ y ∈ a :: b,
        (!(isTagsLine y || isImageLine y)) = true := by
      intro y hy
      rw [← hc] at hy
      rw [hcls] at hy
      exact (List.mem_filter.mp hy).2
    have hnlcls : ∀ y ∈ a :: b, '\n' ∉ y := by
      intro y hy
      rw [← hc, hcls] at hy
      exact decode_lines_nl x y (List.mem_of_mem_tail (List.mem_filter.mp hy).1)
    have hjoin : pySplit '\n' (joinStr ['\n'] (a :: b)) = a :: b :=
      pySplit_joinStr '\n' (a :: b) (by simp) hnlcls
    have hpre : ∀ y ∈ pySplit '\n' (joinStr ['\n'] (a :: b)),
        pyStartsWith (pyStrip y) tagsMark = false ∧
          pyStartsWith (pyStrip y) imageMark = false := by
      intro y hy
      rw [hjoin] at hy
      have hf := hfilter y hy
      simp only [Bool.not_eq_true', Bool.or_eq_false_iff] at hf
      exact ⟨hf.1, hf.2⟩
    have htrans := lines_strip
      (fun z => pyStartsWith z tagsMark = false ∧ pyStartsWith z imageMark = false)
      (joinStr ['\n'] (a :: b)) hpre
    have hres := htrans l hl
    exact ⟨hres.1, hres.2⟩

/-! ### Encode-side computation lemmas -/

theorem joinStr_ne_nil (sep : List Char) (L : List (List Char)) (hL : L ≠ [])
    (hhd : ∀ x ∈ L, x ≠ []) : joinStr sep L ≠ [] := by
  cases L with
  | nil => exact absurd rfl hL
  | cons a r =>
    cases r with
    | nil => exact hhd a (List.mem_cons_self _ _)
    | cons b rs =>
      show a ++ sep ++ joinStr sep (b :: rs) ≠ []
      intro h
      simp only [List.append_eq_nil] at h
      exact hhd a (List.mem_cons_self _ _) h.1.1

theorem joinStr_not_mem (sep : List Char) (c : Char) (hsep : c ∉ sep) :
    ∀ (L : List (List Char)), (∀ x ∈ L, c ∉ x) → c ∉ joinStr sep L := by
  intro L
  induction L with
  | nil => intro _; simp [joinStr]
  | cons a r ih =>
    intro hL
    cases r with
    | nil => exact hL a (List.mem_cons_self _ _)
    | cons b rs =>
      show c ∉ a ++ sep ++ joinStr sep (b :: rs)
      intro h
      rcases List.mem_append.mp h with h1 | h2
      · rcases List.mem_append.mp h1 with ha | hs
        · exact hL a (List.mem_cons_self _ _) ha
        · exact hsep hs
      · exact ih (fun x hx => hL x (List.mem_cons_of_mem _ hx)) h2

theorem joinStr_rstripped (sep : List Char) :
    ∀ (L : List (List Char)), L ≠ [] → (∀ x ∈ L, pyRStrip x = x ∧ x ≠ []) →
      pyRStrip (joinStr sep L) = joinStr sep L := by
  intro L
  induction L with
  | nil => intro h; exact absurd rfl h
  | cons a r ih =>
    intro _ hx
    cases r with
    | nil => exact (hx a (List.mem_cons_self _ _)).1
    | cons b rs =>
      show pyRStrip (a ++ sep ++ joinStr sep (b :: rs)) = _
      have hJ := ih (by simp) (fun x h => hx x (List.mem_cons_of_mem _ h))
      have hJne : joinStr sep (b :: rs) ≠ [] :=
        joinStr_ne_nil sep _ (by simp) (fun x h => (hx x (List.mem_cons_of_mem _ h)).2)
      exact pyRStrip_append (a ++ sep) hJ hJne

theorem pySplit_comma_joinStr (r : List (List Char)) :
    ∀ (a : List Char), ',' ∉ a → (∀ x ∈ r, ',' ∉ x) →
      pySplit ',' (joinStr ", ".data (a :: r)) =
        a :: r.map (fun x => ' ' :: x) := by
  induction r with
  | nil =>
    intro a ha _
    exact pySplit_sepFree ',' a ha
  | cons b rs ih =>
    intro a ha hr
    show pySplit ',' (a ++ ", ".data ++ joinStr ", ".data (b :: rs)) = _
    have hsh : a ++ ", ".data ++ joinStr ", ".data (b :: rs) =
        a ++ ',' :: (' ' :: joinStr ", ".data (b :: rs)) := by
      rw [List.append_assoc]
      rfl
    rw [hsh, pySplit_glue ',' a _ ha]
    have hIH := ih b (hr b (List.mem_cons_self _ _))
      (fun x hx => hr x (List.mem_cons_of_mem _ hx))
    rw [pySplit_cons_of_ne ',' ' ' _ (by decide), hIH]
    rfl

theorem parseTagsField_joined (tg : List (List Char))
    (h : ∀ x ∈ tg, pyStrip x = x ∧ x ≠ [] ∧ ',' ∉ x) :
    parseTagsField (' ' :: joinStr ", ".data tg) = tg := by
  cases tg with
  | nil => decide
  | cons a r =>
    unfold parseTagsField
    rw [pySplit_cons_of_ne ',' ' ' _ (by decide)]
    rw [pySplit_comma_joinStr r a (h a (List.mem_cons_self _ _)).2.2
      (fun x hx => (h x (List.mem_cons_of_mem _ hx)).2.2)]
    simp only [List.map_cons, List.map_map, Function.comp]
    have h1 : pyStrip (' ' :: a) = a := by
      rw [pyStrip_cons_ws a (by decide)]
      exact (h a (List.mem_cons_self _ _)).1
    have hpt : ∀ x ∈ r, pyStrip (' ' :: x) = x := by
      intro x hx
      rw [pyStrip_cons_ws x (by decide)]
      exact (h x (List.mem_cons_of_mem _ hx)).1
    have h2 : r.map (pyStrip ∘ fun x => ' ' :: x) = r := by
      calc r.map (pyStrip ∘ fun x => ' ' :: x) = r.map id :=
            List.map_congr_left (fun x hx => hpt x hx)
        _ = r := List.map_id r
    rw [h1, h2]
    rw [List.filter_eq_self.mpr]
    intro x hx
    cases hx with
    | head => simpa using (h a (List.mem_cons_self _ _)).2.1
    | tail _ hm => simpa using (h x (List.mem_cons_of_mem _ hm)).2.1

theorem startsWith_tags_marker (J : List Char) :
    pyStartsWith ("TAGS: ".data ++ J) tagsMark = true := rfl

theorem startsWith_image_marker (IM : List Char) :
    pyStartsWith ("IMAGE: ".data ++ IM) imageMark = true := rfl

theorem image_not_tags_marker (IM : List Char) :
    pyStartsWith ("IMAGE: ".data ++ IM) tagsMark = false := rfl

theorem pyStrip_tags_line (J : List Char) (hJr : pyRStrip J = J) (hJne : J ≠ []) :
    pyStrip ("TAGS: ".data ++ J) = "TAGS: ".data ++ J := by
  unfold pyStrip
  rw [pyLStrip_append J (show pyLStrip "TAGS: ".data = "TAGS: ".data from rfl) (by decide)]
  exact pyRStrip_append "TAGS: ".data hJr hJne

theorem pyStrip_image_line (IM : List Char) (hr : pyRStrip IM = IM) (hne : IM ≠ []) :
    pyStrip ("IMAGE: ".data ++ IM) = "IMAGE: ".data ++ IM := by
  unfold pyStrip
  rw [pyLStrip_append IM (show pyLStrip "IMAGE: ".data = "IMAGE: ".data from rfl) (by decide)]
  exact pyRStrip_append "IMAGE: ".data hr hne

theorem scanMeta_all_other (ls : List (List Char))
    (h : ∀ l ∈ ls, isTagsLine l = false ∧ isImageLine l = false) :
    ∀ tg im, scanMeta ls tg im = (tg, im, ls) := by
  induction ls with
  | nil => intro tg im; rfl
  | cons l rest ih =>
    intro tg im
    have hl := h l (List.mem_cons_self _ _)
    rw [scanMeta_cons_other rest tg im hl.1 hl.2]
    rw [ih (fun x hx => h x (List.mem_cons_of_mem _ hx)) tg im]

/-! ### Re-decoding an encoded post: case analysis -/

theorem encode_decode_caseB (T : List Char) (hT : pyLStrip T = T)
    (hTnl : '\n' ∉ T) (hTne : T ≠ []) :
    parse_post_content (encodePost T [] [] []) =
      { title := pyRStrip T, content := [], tags := [], image := [] } := by
  have hform : encodePost T [] [] [] = T ++ '\n' :: '\n' :: [] := by
    simp [encodePost, joinStr]
  rw [hform]
  have h1 : pyStrip (T ++ '\n' :: '\n' :: []) = pyRStrip T := by
    unfold pyStrip
    rw [pyLStrip_append ('\n' :: '\n' :: []) hT hTne]
    rw [show T ++ '\n' :: '\n' :: [] = T ++ ['\n', '\n'] from rfl]
    exact pyRStrip_append_ws T (by decide)
  rw [parse_decomp, h1]
  rw [pySplit_sepFree '\n' (pyRStrip T) (not_mem_pyRStrip hTnl)]
  rfl

theorem encode_decode_caseC1 (T : List Char) (TG : List (List Char)) (IM : List Char)
    (hT : pyLStrip T = T) (hTnl : '\n' ∉ T) (hTne : T ≠ [])
    (hTG : ∀ t ∈ TG, TagOK t) (hTGne : TG ≠ [])
    (hIM : pyStrip IM = IM ∧ '\n' ∉ IM) (hIMne : IM ≠ []) :
    parse_post_content (encodePost T [] TG IM) =
      { title := T, content := [], tags := TG, image := IM } := by
  have htagne : ∀ x ∈ TG, x ≠ [] := fun x hx => (hTG x hx).2.1
  have hJne : joinStr ", ".data TG ≠ [] := joinStr_ne_nil _ _ hTGne htagne
  have hJnl : '\n' ∉ joinStr ", ".data TG :=
    joinStr_not_mem _ _ (by decide) TG (fun x hx => (hTG x hx).2.2.2)
  have hJr : pyRStrip (joinStr ", ".data TG) = joinStr ", ".data TG :=
    joinStr_rstripped _ TG hTGne
      (fun x hx => ⟨stripped_right (hTG x hx).1, (hTG x hx).2.1⟩)
  have hIMr : pyRStrip IM = IM := stripped_right hIM.1
  have hTLnl : '\n' ∉ "TAGS: ".data ++ joinStr ", ".data TG := by
    intro hm
    rcases List.mem_append.mp hm with hm | hm
    · revert hm; decide
    · exact hJnl hm
  have hILnl : '\n' ∉ "IMAGE: ".data ++ IM := by
    intro hm
    rcases List.mem_append.mp hm with hm | hm
    · revert hm; decide
    · exact hIM.2 hm
  have hform : encodePost T [] TG IM =
      (T ++ '\n' :: ("TAGS: ".data ++ joinStr ", ".data TG) ++
        '\n' :: ("IMAGE: ".data ++ IM)) ++ ['\n', '\n'] := by
    unfold encodePost
    dsimp only
    rw [if_pos hJne, if_pos hIMne]
    simp
  have hstrip : pyStrip (encodePost T [] TG IM) =
      T ++ '\n' :: ("TAGS: ".data ++ joinStr ", ".data TG) ++
        '\n' :: ("IMAGE: ".data ++ IM) := by
    rw [hform]
    unfold pyStrip
    have hX : (T ++ '\n' :: ("TAGS: ".data ++ joinStr ", ".data TG) ++
        '\n' :: ("IMAGE: ".data ++ IM)) ++ ['\n', '\n'] =
        T ++ ('\n' :: ("TAGS: ".data ++ joinStr ", ".data TG) ++
          '\n' :: ("IMAGE: ".data ++ IM) ++ ['\n', '\n']) := by
      simp
    rw [hX, pyLStrip_append _ hT hTne, ← hX]
    rw [pyRStrip_append_ws _ (by decide)]
    have hY : T ++ '\n' :: ("TAGS: ".data ++ joinStr ", ".data TG) ++
        '\n' :: ("IMAGE: ".data ++ IM) =
        (T ++ '\n' :: ("TAGS: ".data ++ joinStr ", ".data TG) ++
          '\n' :: "IMAGE: ".data) ++ IM := by
      simp
    rw [hY, pyRStrip_append _ hIMr hIMne, ← hY]
  have hlines : pySplit '\n' (pyStrip (encodePost T [] TG IM)) =
      [T, "TAGS: ".data ++ joinStr ", ".data TG, "IMAGE: ".data ++ IM] := by
    rw [hstrip]
    have hZ : T ++ '\n' :: ("TAGS: ".data ++ joinStr ", ".data TG) ++
        '\n' :: ("IMAGE: ".data ++ IM) =
        T ++ '\n' :: (("TAGS: ".data ++ joinStr ", ".data TG) ++
          '\n' :: ("IMAGE: ".data ++ IM)) := by
      simp
    rw [hZ, pySplit_glue '\n' T _ hTnl]
    rw [pySplit_glue '\n' _ _ hTLnl]
    rw [pySplit_sepFree '\n' _ hILnl]
  have hTLtags : isTagsLine ("TAGS: ".data ++ joinStr ", ".data TG) = true := by
    unfold isTagsLine
    rw [pyStrip_tags_line _ hJr hJne]
    exact startsWith_tags_marker _
  have hILtags : isTagsLine ("IMAGE: ".data ++ IM) = false := by
    unfold isTagsLine
    rw [pyStrip_image_line IM hIMr hIMne]
    exact image_not_tags_marker IM
  have hILimg : isImageLine ("IMAGE: ".data ++ IM) = true := by
    unfold isImageLine
    rw [pyStrip_image_line IM hIMr hIMne]
    exact startsWith_image_marker IM
  have htags : parseTagsField
      ((pyStrip ("TAGS: ".data ++ joinStr ", ".data TG)).drop 5) = TG := by
    rw [pyStrip_tags_line _ hJr hJne]
    exact parseTagsField_joined TG
      (fun x hx => ⟨(hTG x hx).1, (hTG x hx).2.1, (hTG x hx).2.2.1⟩)
  have himg : pyStrip ((pyStrip ("IMAGE: ".data ++ IM)).drop 6) = IM := by
    rw [pyStrip_image_line IM hIMr hIMne]
    show pyStrip (' ' :: IM) = IM
    rw [pyStrip_cons_ws IM (by decide)]
    exact hIM.1
  rw [parse_decomp, hlines]
  simp only [List.tail_cons]
  rw [scanMeta_cons_tags _ _ _ hTLtags]
  rw [scanMeta_cons_image _ _ _ hILtags hILimg]
  rw [htags, himg]
  rfl

theorem encode_decode_caseC2 (T : List Char) (TG : List (List Char))
    (hT : pyLStrip T = T) (hTnl : '\n' ∉ T) (hTne : T ≠ [])
    (hTG : ∀ t ∈ TG, TagOK t) (hTGne : TG ≠ []) :
    parse_post_content (encodePost T [] TG []) =
      { title := T, content := [], tags := TG, image := [] } := by
  have htagne : ∀ x ∈ TG, x ≠ [] := fun x hx => (hTG x hx).2.1
  have hJne : joinStr ", ".data TG ≠ [] := joinStr_ne_nil _ _ hTGne htagne
  have hJnl : '\n' ∉ joinStr ", ".data TG :=
    joinStr_not_mem _ _ (by decide) TG (fun x hx => (hTG x hx).2.2.2)
  have hJr : pyRStrip (joinStr ", ".data TG) = joinStr ", ".data TG :=
    joinStr_rstripped _ TG hTGne
      (fun x hx => ⟨stripped_right (hTG x hx).1, (hTG x hx).2.1⟩)
  have hTLnl : '\n' ∉ "TAGS: ".data ++ joinStr ", ".data TG := by
    intro hm
    rcases List.mem_append.mp hm with hm | hm
    · revert hm; decide
    · exact hJnl hm
  have hform : encodePost T [] TG [] =
      (T ++ '\n' :: ("TAGS: ".data ++ joinStr ", ".data TG)) ++ ['\n', '\n'] := by
    unfold encodePost
    dsimp only
    rw [if_pos hJne]
    simp
  have hstrip : pyStrip (encodePost T [] TG []) =
      T ++ '\n' :: ("TAGS: ".data ++ joinStr ", ".data TG) := by
    rw [hform]
    unfold pyStrip
    have hX : (T ++ '\n' :: ("TAGS: ".data ++ joinStr ", ".data TG)) ++ ['\n', '\n'] =
        T ++ ('\n' :: ("TAGS: ".data ++ joinStr ", ".data TG) ++ ['\n', '\n']) := by
      simp
    rw [hX, pyLStrip_append _ hT hTne, ← hX]
    rw [pyRStrip_append_ws _ (by decide)]
    have hY : T ++ '\n' :: ("TAGS: ".data ++ joinStr ", ".data TG) =
        (T ++ '\n' :: "TAGS: ".data) ++ joinStr ", ".data TG := by
      simp
    rw [hY, pyRStrip_append _ hJr hJne, ← hY]
  have hlines : pySplit '\n' (pyStrip (encodePost T [] TG [])) =
      [T, "TAGS: ".data ++ joinStr ", ".data TG] := by
    rw [hstrip]
    rw [pySplit_glue '\n' T _ hTnl]
    rw [pySplit_sepFree '\n' _ hTLnl]
  have hTLtags : isTagsLine ("TAGS: ".data ++ joinStr ", ".data TG) = true := by
    unfold isTagsLine
    rw [pyStrip_tags_line _ hJr hJne]
    exact startsWith_tags_marker _
  have htags : parseTagsField
      ((pyStrip ("TAGS: ".data ++ joinStr ", ".data TG)).drop 5) = TG := by
    rw [pyStrip_tags_line _ hJr hJne]
    exact parseTagsField_joined TG
      (fun x hx => ⟨(hTG x hx).1, (hTG x hx).2.1, (hTG x hx).2.2.1⟩)
  rw [parse_decomp, hlines]
  simp only [List.tail_cons]
  rw [scanMeta_cons_tags _ _ _ hTLtags]
  rw [htags]
  rfl

theorem encode_decode_caseC3 (T : List Char) (IM : List Char)
    (hT : pyLStrip T = T) (hTnl : '\n' ∉ T) (hTne : T ≠ [])
    (hIM : pyStrip IM = IM ∧ '\n' ∉ IM) (hIMne : IM ≠ []) :
    parse_post_content (encodePost T [] [] IM) =
      { title := T, content := [], tags := [], image := IM } := by
  have hIMr : pyRStrip IM = IM := stripped_right hIM.1
  have hILnl : '\n' ∉ "IMAGE: ".data ++ IM := by
    intro hm
    rcases List.mem_append.mp hm with hm | hm
    · revert hm; decide
    · exact hIM.2 hm
  have hform : encodePost T [] [] IM =
      (T ++ '\n' :: ("IMAGE: ".data ++ IM)) ++ ['\n', '\n'] := by
    unfold encodePost
    dsimp only
    rw [if_pos hIMne]
    simp [joinStr]
  have hstrip : pyStrip (encodePost T [] [] IM) =
      T ++ '\n' :: ("IMAGE: ".data ++ IM) := by
    rw [hform]
    unfold pyStrip
    have hX : (T ++ '\n' :: ("IMAGE: ".data ++ IM)) ++ ['\n', '\n'] =
        T ++ ('\n' :: ("IMAGE: ".data ++ IM) ++ ['\n', '\n']) := by
      simp
    rw [hX, pyLStrip_append _ hT hTne, ← hX]
    rw [pyRStrip_append_ws _ (by decide)]
    have hY : T ++ '\n' :: ("IMAGE: ".data ++ IM) =
        (T ++ '\n' :: "IMAGE: ".data) ++ IM := by
      simp
    rw [hY, pyRStrip_append _ hIMr hIMne, ← hY]
  have hlines : pySplit '\n' (pyStrip (encodePost T [] [] IM)) =
      [T, "IMAGE: ".data ++ IM] := by
    rw [hstrip]
    rw [pySplit_glue '\n' T _ hTnl]
    rw [pySplit_sepFree '\n' _ hILnl]
  have hILtags : isTagsLine ("IMAGE: ".data ++ IM) = false := by
    unfold isTagsLine
    rw [pyStrip_image_line IM hIMr hIMne]
    exact image_not_tags_marker IM
  have hILimg : isImageLine ("IMAGE: ".data ++ IM) = true := by
    unfold isImageLine
    rw [pyStrip_image_line IM hIMr hIMne]
    exact startsWith_image_marker IM
  have himg : pyStrip ((pyStrip ("IMAGE: ".data ++ IM)).drop 6) = IM := by
    rw [pyStrip_image_line IM hIMr hIMne]
    show pyStrip (' ' :: IM) = IM
    rw [pyStrip_cons_ws IM (by decide)]
    exact hIM.1
  rw [parse_decomp, hlines]
  simp only [List.tail_cons]
  rw [scanMeta_cons_image _ _ _ hILtags hILimg]
  rw [himg]
  rfl

theorem content_joined (C : List Char) (hCl : pyLStrip C = C) (hCr : pyRStrip C = C) :
    pyStrip (joinStr ['\n'] ([] :: pySplit '\n' C)) = C := by
  have hCs : pyStrip C = C := by
    unfold pyStrip
    rw [hCl, hCr]
  cases hsp : pySplit '\n' C with
  | nil => exact absurd hsp (pySplit_ne_nil _ _)
  | cons a b =>
    show pyStrip ('\n' :: joinStr ['\n'] (a :: b)) = C
    rw [pyStrip_cons_ws _ (by decide)]
    rw [← hsp, joinStr_pySplit '\n' C]
    exact hCs

theorem content_lines_all_other (C : List Char)
    (hCl : ∀ l ∈ pySplit '\n' C, isTagsLine l = false ∧ isImageLine l = false) :
    ∀ l ∈ ([] :: pySplit '\n' C), isTagsLine l = false ∧ isImageLine l = false := by
  intro l hl
  cases hl with
  | head => exact ⟨rfl, rfl⟩
  | tail _ hm => exact hCl l hm

theorem encode_decode_caseD00 (T C : List Char)
    (hT : pyLStrip T = T) (hTnl : '\n' ∉ T) (hTne : T ≠ [])
    (hC : pyLStrip C = C ∧ pyRStrip C = C) (hCne : C ≠ [])
    (hClines : ∀ l ∈ pySplit '\n' C, isTagsLine l = false ∧ isImageLine l = false) :
    parse_post_content (encodePost T C [] []) =
      { title := T, content := C, tags := [], image := [] } := by
  have hform : encodePost T C [] [] = T ++ '\n' :: '\n' :: C := by
    simp [encodePost, joinStr]
  have hstrip : pyStrip (encodePost T C [] []) = T ++ '\n' :: '\n' :: C := by
    rw [hform]
    unfold pyStrip
    rw [pyLStrip_append _ hT hTne]
    have hY : T ++ '\n' :: '\n' :: C = (T ++ ['\n', '\n']) ++ C := by simp
    rw [hY, pyRStrip_append _ hC.2 hCne, ← hY]
  have hlines : pySplit '\n' (pyStrip (encodePost T C [] [])) =
      T :: [] :: pySplit '\n' C := by
    rw [hstrip]
    rw [show T ++ '\n' :: '\n' :: C = T ++ '\n' :: ('\n' :: C) from rfl]
    rw [pySplit_glue '\n' T _ hTnl, pySplit_cons_of_sep]
  rw [parse_decomp, hlines]
  simp only [List.tail_cons]
  rw [scanMeta_all_other _ (content_lines_all_other C hClines) [] []]
  show ({ title := T, content := pyStrip (joinStr ['\n'] ([] :: pySplit '\n' C))
          tags := [], image := [] } : Parsed) = _
  rw [content_joined C hC.1 hC.2]

theorem encode_decode_caseD10 (T C : List Char) (TG : List (List Char))
    (hT : pyLStrip T = T) (hTnl : '\n' ∉ T) (hTne : T ≠ [])
    (hC : pyLStrip C = C ∧ pyRStrip C = C) (hCne : C ≠ [])
    (hClines : ∀ l ∈ pySplit '\n' C, isTagsLine l = false ∧ isImageLine l = false)
    (hTG : ∀ t ∈ TG, TagOK t) (hTGne : TG ≠ []) :
    parse_post_content (encodePost T C TG []) =
      { title := T, content := C, tags := TG, image := [] } := by
  have htagne : ∀ x ∈ TG, x ≠ [] := fun x hx => (hTG x hx).2.1
  have hJne : joinStr ", ".data TG ≠ [] := joinStr_ne_nil _ _ hTGne htagne
  have hJnl : '\n' ∉ joinStr ", ".data TG :=
    joinStr_not_mem _ _ (by decide) TG (fun x hx => (hTG x hx).2.2.2)
  have hJr : pyRStrip (joinStr ", ".data TG) = joinStr ", ".data TG :=
    joinStr_rstripped _ TG hTGne
      (fun x hx => ⟨stripped_right (hTG x hx).1, (hTG x hx).2.1⟩)
  have hTLnl : '\n' ∉ "TAGS: ".data ++ joinStr ", ".data TG := by
    intro hm
    rcases List.mem_append.mp hm with hm | hm
    · revert hm; decide
    · exact hJnl hm
  have hTLtags : isTagsLine ("TAGS: ".data ++ joinStr ", ".data TG) = true := by
    unfold isTagsLine
    rw [pyStrip_tags_line _ hJr hJne]
    exact startsWith_tags_marker _
  have htags : parseTagsField
      ((pyStrip ("TAGS: ".data ++ joinStr ", ".data TG)).drop 5) = TG := by
    rw [pyStrip_tags_line _ hJr hJne]
    exact parseTagsField_joined TG
      (fun x hx => ⟨(hTG x hx).1, (hTG x hx).2.1, (hTG x hx).2.2.1⟩)
  have hform : encodePost T C TG [] =
      T ++ '\n' :: (("TAGS: ".data ++ joinStr ", ".data TG) ++ '\n' :: ('\n' :: C)) := by
    unfold encodePost
    dsimp only
    rw [if_pos hJne]
    simp
  have hstrip : pyStrip (encodePost T C TG []) =
      T ++ '\n' :: (("TAGS: ".data ++ joinStr ", ".data TG) ++ '\n' :: ('\n' :: C)) := by
    rw [hform]
    unfold pyStrip
    rw [pyLStrip_append _ hT hTne]
    have hY : T ++ '\n' :: (("TAGS: ".data ++ joinStr ", ".data TG) ++ '\n' :: ('\n' :: C)) =
        (T ++ '\n' :: ("TAGS: ".data ++ joinStr ", ".data TG) ++ ['\n', '\n']) ++ C := by
      simp
    rw [hY, pyRStrip_append _ hC.2 hCne, ← hY]
  have hlines : pySplit '\n' (pyStrip (encodePost T C TG [])) =
      T :: ("TAGS: ".data ++ joinStr ", ".data TG) :: [] :: pySplit '\n' C := by
    rw [hstrip]
    rw [pySplit_glue '\n' T _ hTnl]
    rw [pySplit_glue '\n' _ _ hTLnl]
    rw [pySplit_cons_of_sep]
  rw [parse_decomp, hlines]
  simp only [List.tail_cons]
  rw [scanMeta_cons_tags _ _ _ hTLtags]
  rw [scanMeta_all_other _ (content_lines_all_other C hClines)]
  show ({ title := T, content := pyStrip (joinStr ['\n'] ([] :: pySplit '\n' C))
          tags := parseTagsField ((pyStrip ("TAGS: ".data ++ joinStr ", ".data TG)).drop 5)
          image := [] } : Parsed) = _
  rw [content_joined C hC.1 hC.2, htags]

theorem encode_decode_caseD01 (T C : List Char) (IM : List Char)
    (hT : pyLStrip T = T) (hTnl : '\n' ∉ T) (hTne : T ≠ [])
    (hC : pyLStrip C = C ∧ pyRStrip C = C) (hCne : C ≠ [])
    (hClines : ∀ l ∈ pySplit '\n' C, isTagsLine l = false ∧ isImageLine l = false)
    (hIM : pyStrip IM = IM ∧ '\n' ∉ IM) (hIMne : IM ≠ []) :
    parse_post_content (encodePost T C [] IM) =
      { title := T, content := C, tags := [], image := IM } := by
  have hIMr : pyRStrip IM = IM := stripped_right hIM.1
  have hILnl : '\n' ∉ "IMAGE: ".data ++ IM := by
    intro hm
    rcases List.mem_append.mp hm with hm | hm
    · revert hm; decide
    · exact hIM.2 hm
  have hILtags : isTagsLine ("IMAGE: ".data ++ IM) = false := by
    unfold isTagsLine
    rw [pyStrip_image_line IM hIMr hIMne]
    exact image_not_tags_marker IM
  have hILimg : isImageLine ("IMAGE: ".data ++ IM) = true := by
    unfold isImageLine
    rw [pyStrip_image_line IM hIMr hIMne]
    exact startsWith_image_marker IM
  have himg : pyStrip ((pyStrip ("IMAGE: ".data ++ IM)).drop 6) = IM := by
    rw [pyStrip_image_line IM hIMr hIMne]
    show pyStrip (' ' :: IM) = IM
    rw [pyStrip_cons_ws IM (by decide)]
    exact hIM.1
  have hform : encodePost T C [] IM =
      T ++ '\n' :: (("IMAGE: ".data ++ IM) ++ '\n' :: ('\n' :: C)) := by
    unfold encodePost
    dsimp only
    rw [if_pos hIMne]
    simp [joinStr]
  have hstrip : pyStrip (encodePost T C [] IM) =
      T ++ '\n' :: (("IMAGE: ".data ++ IM) ++ '\n' :: ('\n' :: C)) := by
    rw [hform]
    unfold pyStrip
    rw [pyLStrip_append _ hT hTne]
    have hY : T ++ '\n' :: (("IMAGE: ".data ++ IM) ++ '\n' :: ('\n' :: C)) =
        (T ++ '\n' :: ("IMAGE: ".data ++ IM) ++ ['\n', '\n']) ++ C := by
      simp
    rw [hY, pyRStrip_append _ hC.2 hCne, ← hY]
  have hlines : pySplit '\n' (pyStrip (encodePost T C [] IM)) =
      T :: ("IMAGE: ".data ++ IM) :: [] :: pySplit '\n' C := by
    rw [hstrip]
    rw [pySplit_glue '\n' T _ hTnl]
    rw [pySplit_glue '\n' _ _ hILnl]
    rw [pySplit_cons_of_sep]
  rw [parse_decomp, hlines]
  simp only [List.tail_cons]
  rw [scanMeta_cons_image _ _ _ hILtags hILimg]
  rw [scanMeta_all_other _ (content_lines_all_other C hClines)]
  show ({ title := T, content := pyStrip (joinStr ['\n'] ([] :: pySplit '\n' C))
          tags := []
          image := pyStrip ((pyStrip ("IMAGE: ".data ++ IM)).drop 6) } : Parsed) = _
  rw [content_joined C hC.1 hC.2, himg]

theorem encode_decode_caseD11 (T C : List Char) (TG : List (List Char)) (IM : List Char)
    (hT : pyLStrip T = T) (hTnl : '\n' ∉ T) (hTne : T ≠ [])
    (hC : pyLStrip C = C ∧ pyRStrip C = C) (hCne : C ≠ [])
    (hClines : ∀ l ∈ pySplit '\n' C, isTagsLine l = false ∧ isImageLine l = false)
    (hTG : ∀ t ∈ TG, TagOK t) (hTGne : TG ≠ [])
    (hIM : pyStrip IM = IM ∧ '\n' ∉ IM) (hIMne : IM ≠ []) :
    parse_post_content (encodePost T C TG IM) =
      { title := T, content := C, tags := TG, image := IM } := by
  have htagne : ∀ x ∈ TG, x ≠ [] := fun x hx => (hTG x hx).2.1
  have hJne : joinStr ", ".data TG ≠ [] := joinStr_ne_nil _ _ hTGne htagne
  have hJnl : '\n' ∉ joinStr ", ".data TG :=
    joinStr_not_mem _ _ (by decide) TG (fun x hx => (hTG x hx).2.2.2)
  have hJr : pyRStrip (joinStr ", ".data TG) = joinStr ", ".data TG :=
    joinStr_rstripped _ TG hTGne
      (fun x hx => ⟨stripped_right (hTG x hx).1, (hTG x hx).2.1⟩)
  have hIMr : pyRStrip IM = IM := stripped_right hIM.1
  have hTLnl : '\n' ∉ "TAGS: ".data ++ joinStr ", ".data TG := by
    intro hm
    rcases List.mem_append.mp hm with hm | hm
    · revert hm; decide
    · exact hJnl hm
  have hILnl : '\n' ∉ "IMAGE: ".data ++ IM := by
    intro hm
    rcases List.mem_append.mp hm with hm | hm
    · revert hm; decide
    · exact hIM.2 hm
  have hTLtags : isTagsLine ("TAGS: ".data ++ joinStr ", ".data TG) = true := by
    unfold isTagsLine
    rw [pyStrip_tags_line _ hJr hJne]
    exact startsWith_tags_marker _
  have hILtags : isTagsLine ("IMAGE: ".data ++ IM) = false := by
    unfold isTagsLine
    rw [pyStrip_image_line IM hIMr hIMne]
    exact image_not_tags_marker IM
  have hILimg : isImageLine ("IMAGE: ".data ++ IM) = true := by
    unfold isImageLine
    rw [pyStrip_image_line IM hIMr hIMne]
    exact startsWith_image_marker IM
  have htags : parseTagsField
      ((pyStrip ("TAGS: ".data ++ joinStr ", ".data TG)).drop 5) = TG := by
    rw [pyStrip_tags_line _ hJr hJne]
    exact parseTagsField_joined TG
      (fun x hx => ⟨(hTG x hx).1, (hTG x hx).2.1, (hTG x hx).2.2.1⟩)
  have himg : pyStrip ((pyStrip ("IMAGE: ".data ++ IM)).drop 6) = IM := by
    rw [pyStrip_image_line IM hIMr hIMne]
    show pyStrip (' ' :: IM) = IM
    rw [pyStrip_cons_ws IM (by decide)]
    exact hIM.1
  have hform : encodePost T C TG IM =
      T ++ '\n' :: (("TAGS: ".data ++ joinStr ", ".data TG) ++
        '\n' :: (("IMAGE: ".data ++ IM) ++ '\n' :: ('\n' :: C))) := by
    unfold encodePost
    dsimp only
    rw [if_pos hJne, if_pos hIMne]
    simp
  have hstrip : pyStrip (encodePost T C TG IM) =
      T ++ '\n' :: (("TAGS: ".data ++ joinStr ", ".data TG) ++
        '\n' :: (("IMAGE: ".data ++ IM) ++ '\n' :: ('\n' :: C))) := by
    rw [hform]
    unfold pyStrip
    rw [pyLStrip_append _ hT hTne]
    have hY : T ++ '\n' :: (("TAGS: ".data ++ joinStr ", ".data TG) ++
        '\n' :: (("IMAGE: ".data ++ IM) ++ '\n' :: ('\n' :: C))) =
        (T ++ '\n' :: ("TAGS: ".data ++ joinStr ", ".data TG) ++
          '\n' :: ("IMAGE: ".data ++ IM) ++ ['\n', '\n']) ++ C := by
      simp
    rw [hY, pyRStrip_append _ hC.2 hCne, ← hY]
  have hlines : pySplit '\n' (pyStrip (encodePost T C TG IM)) =
      T :: ("TAGS: ".data ++ joinStr ", ".data TG) ::
        ("IMAGE: ".data ++ IM) :: [] :: pySplit '\n' C := by
    rw [hstrip]
    rw [pySplit_glue '\n' T _ hTnl]
    rw [pySplit_glue '\n' _ _ hTLnl]
    rw [pySplit_glue '\n' _ _ hILnl]
    rw [pySplit_cons_of_sep]
  rw [parse_decomp, hlines]
  simp only [List.tail_cons]
  rw [scanMeta_cons_tags _ _ _ hTLtags]
  rw [scanMeta_cons_image _ _ _ hILtags hILimg]
  rw [scanMeta_all_other _ (content_lines_all_other C hClines)]
  show ({ title := T, content := pyStrip (joinStr ['\n'] ([] :: pySplit '\n' C))
          tags := parseTagsField ((pyStrip ("TAGS: ".data ++ joinStr ", ".data TG)).drop 5)
          image := pyStrip ((pyStrip ("IMAGE: ".data ++ IM)).drop 6) } : Parsed) = _
  rw [content_joined C hC.1 hC.2, htags, himg]

theorem encode_decode_good (T C : List Char) (TG : List (List Char)) (IM : List Char)
    (hT : pyLStrip T = T) (hTnl : '\n' ∉ T)
    (hC : pyLStrip C = C ∧ pyRStrip C = C)
    (hTG : ∀ t ∈ TG, TagOK t)
    (hIM : pyStrip IM = IM ∧ '\n' ∉ IM)
    (hClines : ∀ l ∈ pySplit '\n' C, isTagsLine l = false ∧ isImageLine l = false)
    (hE : T = [] → C = [] ∧ TG = [] ∧ IM = []) :
    parse_post_content (encodePost T C TG IM) =
      { title := if C = [] ∧ TG = [] ∧ IM = [] then pyRStrip T else T
        content := C
        tags := TG
        image := IM } := by
  by_cases hTe : T = []
  · obtain ⟨h1, h2, h3⟩ := hE hTe
    rw [hTe, h1, h2, h3]
    decide
  · by_cases hCe : C = []
    · by_cases hTGe : TG = []
      · by_cases hIMe : IM = []
        · rw [hCe, hTGe, hIMe, if_pos ⟨rfl, rfl, rfl⟩]
          exact encode_decode_caseB T hT hTnl hTe
        · rw [hCe, hTGe, if_neg (fun h => hIMe h.2.2)]
          exact encode_decode_caseC3 T IM hT hTnl hTe hIM hIMe
      · by_cases hIMe : IM = []
        · rw [hCe, hIMe, if_neg (fun h => hTGe h.2.1)]
          exact encode_decode_caseC2 T TG hT hTnl hTe hTG hTGe
        · rw [hCe, if_neg (fun h => hTGe h.2.1)]
          exact encode_decode_caseC1 T TG IM hT hTnl hTe hTG hTGe hIM hIMe
    · rw [if_neg (fun h => hCe h.1)]
      by_cases hTGe : TG = []
      · by_cases hIMe : IM = []
        · rw [hTGe, hIMe]
          exact encode_decode_caseD00 T C hT hTnl hTe hC hCe hClines
        · rw [hTGe]
          exact encode_decode_caseD01 T C IM hT hTnl hTe hC hCe hClines hIM hIMe
      · by_cases hIMe : IM = []
        · rw [hIMe]
          exact encode_decode_caseD10 T C TG hT hTnl hTe hC hCe hClines hTG hTGe
        · exact encode_decode_caseD11 T C TG IM hT hTnl hTe hC hCe hClines hTG hTGe hIM hIMe

/-! ### Claim C7 -/

/-- C7 counterexample: the text "A \nTAGS:" decodes to the title "A " (with
a trailing space) and empty content, tags and image; re-encoding yields
"A \n\n", whose decode strips the trailing whitespace of the title line, so
the round trip changes the title: the claim fails as universally stated. -/
theorem c7_counterexample :
    (parse_post_content (encodePost (parse_post_content "A \nTAGS:".data).title
        (parse_post_content "A \nTAGS:".data).content
        (parse_post_content "A \nTAGS:".data).tags
        (parse_post_content "A \nTAGS:".data).image)).title ≠
      (parse_post_content "A \nTAGS:".data).title := by decide

/-- C7 amended: re-encoding a decoded post and decoding again always
reproduces the tags, the image URL and even the body exactly; the title is
also reproduced exactly except in the degenerate case where the decoded
body, tags and image are all empty, in which case the title additionally
loses its trailing whitespace (whole-text strip reaches the title line). -/
theorem c7_roundtrip_amended (x : List Char) :
    parse_post_content (encodePost (parse_post_content x).title
        (parse_post_content x).content (parse_post_content x).tags
        (parse_post_content x).image) =
      { title := if (parse_post_content x).content = [] ∧
            (parse_post_content x).tags = [] ∧ (parse_post_content x).image = []
          then pyRStrip (parse_post_content x).title
          else (parse_post_content x).title
        content := (parse_post_content x).content
        tags := (parse_post_content x).tags
        image := (parse_post_content x).image } := by
  have gT := decode_title_good x
  have gC := decode_content_stripped x
  have gTG := decode_tags_good x
  have gIM := decode_image_good x
  have gCl := decode_content_lines x
  refine encode_decode_good _ _ _ _ gT.1 gT.2.1 gC gTG gIM gCl ?_
  intro hTe
  have hempty := gT.2.2 hTe
  rw [decode_empty x hempty]
  exact ⟨rfl, rfl, rfl⟩

end CheerFactory
